import Mathlib

/-!
Verification of the libnunchuk wallet-state persistence and chain-sync engine
(`NunchukWalletDb` in walletdb.cpp and `ElectrumSynchronizer` in
backend/electrum/synchronizer.cpp) against its natural-language specification.

The development shallowly embeds the relevant operations:
* the coin-derivation algorithm `GetCoinsFromTransactions` and `GetBalance`,
* the VTX transaction table and its operations (`InsertTransaction`,
  `UpdateTransaction`, `UpdatePsbtTxId`, `GetTransaction`, `SetReplacedBy`,
  `FillExtra`),
* the ADDRESS table together with the process-wide address cache
  (`GetAllAddressData`, `AddAddress`, `UseAddress`, `SetUtxos`),
* the synchronizer's `UpdateTransactions` reconciliation (batch and
  sequential paths).

External collaborators that are not part of the repository sources
(bitcoin-core transaction decoding, descriptor address derivation) enter as
abstract function parameters (`txidOf`, `signersOf`, `derive`, ...).
-/

namespace Nunchuk

/-- Modelled from the spec: the public enum `TransactionStatus` is declared in
the library's public header, which is not among the sources; the spec's §4.3
state machine lists exactly these states. Only equality tests on this type are
performed by the embedded code, so constructor order is irrelevant. -/
inductive TransactionStatus where
  | PENDING_SIGNATURES
  | READY_TO_BROADCAST
  | PENDING_CONFIRMATION
  | CONFIRMED
  | NETWORK_REJECTED
  | REPLACED
deriving DecidableEq

/-- Modelled from the spec: the public enum `CoinStatus` is declared in the
library's public header, which is not among the sources. The spec gives the
two chains OUTGOING_PENDING_SIGNATURES < OUTGOING_PENDING_BROADCAST <
OUTGOING_PENDING_CONFIRMATION < SPENT and INCOMING_PENDING_CONFIRMATION <
CONFIRMED, says the numeric ordering is total with SPENT the most settled,
and its balance scenario places the outgoing tiers above CONFIRMED (a
confirmed coin spent by an unbroadcast transaction moves to the
OUTGOING_PENDING_SIGNATURES tier). The constructor order below is the unique
total order consistent with those statements. -/
inductive CoinStatus where
  | INCOMING_PENDING_CONFIRMATION
  | CONFIRMED
  | OUTGOING_PENDING_SIGNATURES
  | OUTGOING_PENDING_BROADCAST
  | OUTGOING_PENDING_CONFIRMATION
  | SPENT
deriving DecidableEq

/-- Numeric value of a `CoinStatus`, mirroring the C++ enum-to-int coercion
used by `operator<` in the `set_status` lambda. -/
def CoinStatus.toNat : CoinStatus → Nat
  | .INCOMING_PENDING_CONFIRMATION => 0
  | .CONFIRMED => 1
  | .OUTGOING_PENDING_SIGNATURES => 2
  | .OUTGOING_PENDING_BROADCAST => 3
  | .OUTGOING_PENDING_CONFIRMATION => 4
  | .SPENT => 5

/-- The default-constructed coin status (bottom of the ordering); a fresh
`coins[id]` entry starts here and is only ever upgraded. -/
def CoinStatus.bot : CoinStatus := .INCOMING_PENDING_CONFIRMATION

/-- `max` on coin statuses under the numeric ordering; `set_status` upgrades a
coin's status to exactly this. -/
def csMax (a b : CoinStatus) : CoinStatus :=
  if a.toNat < b.toNat then b else a

/-- walletdb.cpp `CoinId`: `strprintf("%s:%d", tx_id, vout)`. -/
def CoinId (txid : String) (vout : Nat) : String :=
  txid ++ ":" ++ toString vout

/-- In-memory `Transaction` view as consumed by `GetCoinsFromTransactions`:
identifier, height, derived status, inputs (previous txid, vout), outputs
(address, amount) and the metadata copied onto derived coins. -/
structure TxView where
  txid : String
  height : Int
  status : TransactionStatus
  inputs : List (String × Nat)
  outputs : List (String × Int)
  memo : String
  blocktime : Int
  scheduleTime : Int
deriving DecidableEq

/-- The derived `UnspentOutput` record (one coin). -/
structure UnspentOutput where
  txid : String := ""
  vout : Nat := 0
  address : String := ""
  amount : Int := 0
  height : Int := 0
  blocktime : Int := 0
  scheduleTime : Int := 0
  memo : String := ""
  change : Bool := false
  status : CoinStatus := CoinStatus.bot
deriving DecidableEq

/-- Ownership context: `IsMyAddress` / `IsMyChange`, which
`GetCoinsFromTransactions` consults for every input's previous output address
and every output address. -/
structure OwnCtx where
  isMyAddress : String → Bool
  isMyChange : String → Bool

/-- The derived coin map `std::map<std::string, UnspentOutput>`; represented
as an association list with unique keys (first-match lookup). -/
abbrev CoinMap := List (String × UnspentOutput)

/-- Lookup in the coin map. -/
def lookupCoin (m : CoinMap) (id : String) : Option UnspentOutput :=
  (m.find? (fun p => p.1 = id)).map (·.2)

/-- `coins[id]` access-and-mutate: modifies the entry in place when present,
otherwise appends a default-constructed entry and mutates it. -/
def updateCoin (m : CoinMap) (id : String) (f : UnspentOutput → UnspentOutput) :
    CoinMap :=
  match m with
  | [] => [(id, f {})]
  | (k, c) :: rest =>
    if k = id then (k, f c) :: rest else (k, c) :: updateCoin rest id f

/-- Pass 1a of `GetCoinsFromTransactions`: `tx_map.insert` (first insertion
wins for a duplicate key, like `std::map::insert`). -/
def findTx (txs : List TxView) (id : String) : Option TxView :=
  txs.find? (fun t => t.txid = id)

/-- One pass-1b step of `GetCoinsFromTransactions`: transactions with
`height <= 0` are skipped, otherwise each input's coin id is claimed by the
transaction (`operator[]` assignment: the last writer wins, modelled as
function override). -/
def usedByStep (m : String → Option String) (tx : TxView) :
    String → Option String :=
  if tx.height ≤ 0 then m
  else tx.inputs.foldl
    (fun m inp => fun c =>
      if c = CoinId inp.1 inp.2 then some tx.txid else m c)
    m

/-- Pass 1b of `GetCoinsFromTransactions`: the `used_by` double-spend map. -/
def buildUsedBy (txs : List TxView) : String → Option String :=
  txs.foldl usedByStep (fun _ => none)

/-- The spending transaction's contribution to a spent coin's status
(the if/else-if chain on `tx.get_status()` in the input loop). -/
def spendStatus : TransactionStatus → Option CoinStatus
  | .CONFIRMED => some .SPENT
  | .PENDING_CONFIRMATION => some .OUTGOING_PENDING_CONFIRMATION
  | .READY_TO_BROADCAST => some .OUTGOING_PENDING_BROADCAST
  | .PENDING_SIGNATURES => some .OUTGOING_PENDING_SIGNATURES
  | _ => none

/-- The `set_status` lambda: upgrade only (`if (coins[id].get_status() <
status) coins[id].set_status(status)`). -/
def setStatusUpdate (c : UnspentOutput) (s : CoinStatus) : UnspentOutput :=
  if c.status.toNat < s.toNat then { c with status := s } else c

/-- One iteration of the input loop of pass 2 (walletdb.cpp lines 1883-1907):
skip unless the previous transaction is known, the referenced output exists
and its address is owned; otherwise overwrite the coin's data from the
previous transaction and upgrade its status per the spender's status.
An out-of-range `vout` is modelled as a skip. -/
def applyInput (ctx : OwnCtx) (txMap : String → Option TxView) (tx : TxView)
    (m : CoinMap) (inp : String × Nat) : CoinMap :=
  match txMap inp.1 with
  | none => m
  | some prev =>
    match prev.outputs[inp.2]? with
    | none => m
    | some out =>
      if ctx.isMyAddress out.1 then
        updateCoin m (CoinId inp.1 inp.2) (fun c =>
          let c := { c with
            txid := inp.1, vout := inp.2, address := out.1, amount := out.2,
            height := prev.height, blocktime := prev.blocktime,
            scheduleTime := prev.scheduleTime }
          let c := match spendStatus tx.status with
            | some s => setStatusUpdate c s
            | none => c
          { c with memo := prev.memo, change := ctx.isMyChange out.1 })
      else m

/-- One iteration of the output loop of pass 2 (walletdb.cpp lines 1909-1926). -/
def applyOutput (ctx : OwnCtx) (tx : TxView) (m : CoinMap)
    (vout : Nat) (out : String × Int) : CoinMap :=
  if ctx.isMyAddress out.1 then
    updateCoin m (CoinId tx.txid vout) (fun c =>
      let c := { c with
        txid := tx.txid, vout := vout, address := out.1, amount := out.2,
        height := tx.height, blocktime := tx.blocktime,
        scheduleTime := tx.scheduleTime }
      let c := setStatusUpdate c
        (if tx.height > 0 then .CONFIRMED else .INCOMING_PENDING_CONFIRMATION)
      { c with memo := tx.memo, change := ctx.isMyChange out.1 })
  else m

/-- The invalidity test of pass 2: some input's coin is claimed in `used_by`
by a different transaction id. -/
def isShadowed (usedBy : String → Option String) (tx : TxView) : Bool :=
  tx.inputs.any (fun inp =>
    match usedBy (CoinId inp.1 inp.2) with
    | some t => t ≠ tx.txid
    | none => false)

/-- One pass-2 step of `GetCoinsFromTransactions`: REPLACED and
NETWORK_REJECTED transactions are skipped, invalid (shadowed) transactions
are skipped whole, otherwise all inputs and then all outputs are applied. -/
def pass2Step (ctx : OwnCtx) (txMap : String → Option TxView)
    (usedBy : String → Option String) (m : CoinMap) (tx : TxView) : CoinMap :=
  if tx.status = .REPLACED ∨ tx.status = .NETWORK_REJECTED then m
  else if isShadowed usedBy tx then m
  else
    let m := tx.inputs.foldl (applyInput ctx txMap tx) m
    tx.outputs.enum.foldl (fun m p => applyOutput ctx tx m p.1 p.2) m

/-- `NunchukWalletDb::GetCoinsFromTransactions` (walletdb.cpp 1854-1929):
two passes, the first building the transaction index and the confirmed-spender
map, the second replaying every transaction into the coin map. -/
def GetCoinsFromTransactions (ctx : OwnCtx) (txs : List TxView) : CoinMap :=
  txs.foldl (pass2Step ctx (findTx txs) (buildUsedBy txs)) []

/-- `NunchukWalletDb::GetBalance` (walletdb.cpp 1091-1104): fold over the
derived coins, skipping SPENT and OUTGOING_PENDING_CONFIRMATION coins, and --
when the mempool is excluded -- also skipping non-change
INCOMING_PENDING_CONFIRMATION coins. -/
def GetBalance (ctx : OwnCtx) (txs : List TxView) (includeMempool : Bool) :
    Int :=
  (GetCoinsFromTransactions ctx txs).foldl
    (fun acc p =>
      if p.2.status = .SPENT ∨ p.2.status = .OUTGOING_PENDING_CONFIRMATION then
        acc
      else if !includeMempool && !p.2.change &&
          p.2.status = .INCOMING_PENDING_CONFIRMATION then acc
      else acc + p.2.amount)
    0

/-- The `StorageException` codes relevant to the embedded operations. -/
inductive StorageError where
  | TX_NOT_FOUND
deriving DecidableEq

/-- The EXTRA json side-channel of a VTX row, as a structure of optional
fields (walletdb.cpp writes exactly these keys). -/
structure Extra where
  signers : Option (List (String × Bool)) := none
  outputs : Option (List (String × Int)) := none
  feeRate : Option Int := none
  subtract : Option Bool := none
  replace_txid : Option String := none
  schedule_time : Option Int := none
  reject_msg : Option String := none
  replaced_by_txid : Option String := none
deriving DecidableEq

/-- One row of the VTX table: `ID, VALUE, HEIGHT, FEE, MEMO, CHANGEPOS,
BLOCKTIME, EXTRA` (`ID` is the primary key). -/
structure TxRow where
  id : String
  value : String
  height : Int
  fee : Int
  memo : String
  changePos : Int
  blocktime : Int
  extra : Extra
deriving DecidableEq

/-- The VTX table as a row list; the primary key makes ids unique, which
theorems assume as a `Nodup` hypothesis where needed. -/
abbrev TxStore := List TxRow

/-- `NunchukWalletDb::InsertTransaction` (walletdb.cpp 707-732): upsert keyed
by the transaction id derived from the raw bytes; on conflict only VALUE and
HEIGHT are overwritten, a fresh row gets an empty EXTRA. `txidOf` abstracts
`DecodeRawTransaction(raw).GetHash().GetHex()`. -/
def InsertTransaction (txidOf : String → String) (s : TxStore) (raw : String)
    (height blocktime fee : Int) (memo : String) (changePos : Int) : TxStore :=
  if s.any (fun r => r.id = txidOf raw) then
    s.map (fun r =>
      if r.id = txidOf raw then { r with value := raw, height := height }
      else r)
  else
    s ++ [{ id := txidOf raw, value := raw, height := height, fee := fee,
            memo := memo, changePos := changePos, blocktime := blocktime,
            extra := {} }]

/-- `NunchukWalletDb::SetReplacedBy` (walletdb.cpp 734-758): if a row for
`oldTxid` exists, set `replaced_by_txid` in its EXTRA; otherwise no-op. -/
def SetReplacedBy (s : TxStore) (oldTxid newTxid : String) : TxStore :=
  if s.any (fun r => r.id = oldTxid) then
    s.map (fun r =>
      if r.id = oldTxid then
        { r with extra := { r.extra with replaced_by_txid := some newTxid } }
      else r)
  else s

/-- `NunchukWalletDb::UpdateTransaction` (walletdb.cpp 760-852). For
`height = -1`: look up the existing unbroadcast row by the id derived from
`raw`; if absent, throw TX_NOT_FOUND (leaving the store untouched, since the
throw precedes any write); if present, overwrite only VALUE and the signer
snapshot inside EXTRA. For `height >= 0`: when `height <= 0` (i.e. exactly 0
here), re-read a pre-existing unbroadcast row for the same id to migrate the
signer snapshot (computed from the OLD stored payload), record a non-empty
reject message, and propagate the replacement link via `SetReplacedBy` when
the old EXTRA carries `replace_txid`; then overwrite VALUE, HEIGHT, BLOCKTIME
(and EXTRA when the unbroadcast row was found). The returned Bool mirrors
`sqlite3_changes(db_) == 1` of the final UPDATE. `signersOf` abstracts the
per-signer signature snapshot `GetTransactionFromStr(_, GetSigners(), 0, -1)
.get_signers()`. -/
def UpdateTransaction (txidOf : String → String)
    (signersOf : String → List (String × Bool)) (s : TxStore) (raw : String)
    (height blocktime : Int) (rejectMsg : String) :
    Except StorageError Bool × TxStore :=
  if height = -1 then
    let id := txidOf raw
    match s.find? (fun r => r.id = id && r.height = -1) with
    | none => (.error .TX_NOT_FOUND, s)
    | some _ =>
      let s1 := s.map (fun r =>
        if r.id = id then
          { r with value := raw,
                   extra := { r.extra with signers := some (signersOf raw) } }
        else r)
      (.ok (s.countP (fun r => r.id = id) = 1), s1)
  else
    let id := txidOf raw
    let found := if height ≤ 0 then
        s.find? (fun r => r.id = id && r.height = -1)
      else none
    let newExtra : Option Extra := found.map (fun r0 =>
      let e := { r0.extra with signers := some (signersOf r0.value) }
      if rejectMsg ≠ "" then { e with reject_msg := some rejectMsg } else e)
    let s1 := match found with
      | some r0 =>
        match r0.extra.replace_txid with
        | some old => SetReplacedBy s old id
        | none => s
      | none => s
    let s2 := s1.map (fun r =>
      if r.id = id then
        match newExtra with
        | some e => { r with value := raw, height := height,
                             blocktime := blocktime, extra := e }
        | none => { r with value := raw, height := height,
                           blocktime := blocktime }
      else r)
    (.ok (s1.countP (fun r => r.id = id) = 1), s2)

/-- `NunchukWalletDb::GetTransaction` (walletdb.cpp 1020-1070), at row
granularity: the returned `Transaction` view copies VALUE, FEE, MEMO,
CHANGEPOS and BLOCKTIME from the row and applies `FillExtra`; a missing row
throws TX_NOT_FOUND. -/
def GetTransaction (s : TxStore) (id : String) : Except StorageError TxRow :=
  match s.find? (fun r => r.id = id) with
  | some r => .ok r
  | none => .error .TX_NOT_FOUND

/-- `NunchukWalletDb::DeleteTransaction` (walletdb.cpp 1072-1081). -/
def DeleteTransaction (s : TxStore) (id : String) : Bool × TxStore :=
  ((s.countP (fun r => r.id = id) = 1 : Bool),
   s.filter (fun r => r.id ≠ id))

/-- `NunchukWalletDb::UpdatePsbtTxId` (walletdb.cpp 946-984): select the
unbroadcast row for `oldId`; if absent throw TX_NOT_FOUND (store untouched);
otherwise insert a clone under `newId` preserving VALUE, FEE, MEMO, CHANGEPOS
and EXTRA (with HEIGHT = -1 and BLOCKTIME = 0), then delete the old row. -/
def UpdatePsbtTxId (s : TxStore) (oldId newId : String) :
    Except StorageError Bool × TxStore :=
  match s.find? (fun r => r.id = oldId && r.height = -1) with
  | none => (.error .TX_NOT_FOUND, s)
  | some r =>
    let s1 := s ++ [{ id := newId, value := r.value, height := -1,
                      fee := r.fee, memo := r.memo, changePos := r.changePos,
                      blocktime := 0, extra := r.extra }]
    let d := DeleteTransaction s1 oldId
    (.ok d.1, d.2)

/-- Modelled from the spec: the status a transaction derives from its stored
height (`GetTransactionFromStr` lives in utils/txutils.hpp, which is not
among the sources). Spec rule: height -1 is unbroadcast, split into
READY_TO_BROADCAST / PENDING_SIGNATURES by signature completeness; height 0
is PENDING_CONFIRMATION; height > 0 is CONFIRMED. -/
def statusFromHeight (sigComplete : Bool) (h : Int) : TransactionStatus :=
  if h = -1 then
    if sigComplete then .READY_TO_BROADCAST else .PENDING_SIGNATURES
  else if h = 0 then .PENDING_CONFIRMATION
  else .CONFIRMED

/-- The status adjustment of `NunchukWalletDb::FillExtra` (walletdb.cpp
1243-1250): a stored PENDING_CONFIRMATION transaction whose EXTRA carries
`replaced_by_txid` surfaces as REPLACED; nothing else changes the status. -/
def fillExtraStatus (e : Extra) (st : TransactionStatus) : TransactionStatus :=
  if st = .PENDING_CONFIRMATION ∧ e.replaced_by_txid.isSome then .REPLACED
  else st

/-- The status a stored row surfaces through `GetTransaction`/
`GetTransactions`: height-derived status refined by `FillExtra`.
`sigComplete` abstracts the m-of-n signature-completeness test on the
payload. -/
def readStatus (sigComplete : String → Bool) (r : TxRow) : TransactionStatus :=
  fillExtraStatus r.extra (statusFromHeight (sigComplete r.value) r.height)

/-- `ADDRESS_LOOK_AHEAD` (walletdb.cpp 383): the gap limit. -/
def ADDRESS_LOOK_AHEAD : Int := 20

/-- The in-memory `AddressData` entries held in `addr_cache_`. -/
structure AddressData where
  address : String
  index : Nat
  internal : Bool
  used : Bool
deriving DecidableEq

/-- One row of the ADDRESS table: `ADDR, IDX, INTERNAL, USED, UTXO`
(`ADDR` is the primary key). -/
structure AddrRow where
  addr : String
  idx : Nat
  internal : Bool
  used : Bool
  utxo : String
deriving DecidableEq

/-- Wallet-store state relevant to the address claims: the ADDRESS table, the
stored transactions (as views, since only their output addresses matter
here), and the process-wide per-store address cache (`addr_cache_`),
`none` when not yet built or evicted. -/
structure WalletDbState where
  rows : List AddrRow
  txs : List TxView
  cache : Option (List (String × AddressData))
deriving DecidableEq

/-- Generic association-list read (first match). -/
def getAssoc {α : Type} (m : List (String × α)) (k : String) : Option α :=
  (m.find? (fun p => p.1 = k)).map (·.2)

/-- Generic association-list write, `std::map::operator[]` assignment:
overwrite in place when the key exists, append otherwise. -/
def setAssoc {α : Type} (m : List (String × α)) (k : String) (v : α) :
    List (String × α) :=
  match m with
  | [] => [(k, v)]
  | (k', v') :: rest =>
    if k' = k then (k, v) :: rest else (k', v') :: setAssoc rest k v

/-- `NunchukWalletDb::GetCurrentAddressIndex` (walletdb.cpp 693-705):
`MAX(IDX)` over the branch's rows, -1 when the branch has no rows. -/
def GetCurrentAddressIndex (st : WalletDbState) (internal : Bool) : Int :=
  (st.rows.filter (fun r => r.internal = internal)).foldl
    (fun m r => max m (r.idx : Int)) (-1)

/-- The address-set computation inside `GetAllAddressData` (walletdb.cpp
609-626, non-escrow branch): derive the internal branch for indices 0 through
`GetCurrentAddressIndex(true) + ADDRESS_LOOK_AHEAD`, then the external branch
likewise, into one address-keyed map. `derive` abstracts
`CoreUtils::DeriveAddresses` (not among the sources); modelled from the spec,
the derivation range is inclusive of the upper index. -/
def buildAddresses (derive : Bool → Nat → String) (st : WalletDbState) :
    List (String × AddressData) :=
  let mkBranch := fun (internal : Bool) (m : List (String × AddressData)) =>
    (List.range (GetCurrentAddressIndex st internal + 1 +
        ADDRESS_LOOK_AHEAD).toNat).foldl
      (fun m i => setAssoc m (derive internal i)
        { address := derive internal i, index := i, internal := internal,
          used := false })
      m
  mkBranch false (mkBranch true [])

/-- `NunchukWalletDb::UseAddress` (walletdb.cpp 583-588): mark the cached
entry used; no-op when the address is empty, the cache is absent or the
address is not cached. -/
def UseAddress (st : WalletDbState) (a : String) : WalletDbState :=
  if a = "" then st
  else
    match st.cache with
    | none => st
    | some m =>
      if (getAssoc m a).isSome then
        { st with cache := some (m.map (fun p =>
            if p.1 = a then (p.1, { p.2 with used := true }) else p)) }
      else st

/-- `NunchukWalletDb::GetAllAddressData` (walletdb.cpp 599-633, non-escrow):
on a cache hit return the cache; otherwise build the address set, install it
as the cache, then scan every stored transaction's outputs through
`UseAddress`. The call's own return value is the local map captured BEFORE
the used-flag marking (line 632 returns the local copy; the marking goes to
the cache only). -/
def GetAllAddressData (derive : Bool → Nat → String) (st : WalletDbState) :
    List (String × AddressData) × WalletDbState :=
  match st.cache with
  | some m => (m, st)
  | none =>
    let adds := buildAddresses derive st
    let st1 := { st with cache := some adds }
    let st2 := st.txs.foldl
      (fun s tx => tx.outputs.foldl (fun s out => UseAddress s out.1) s) st1
    (adds, st2)

/-- `NunchukWalletDb::SetAddress` (walletdb.cpp 556-571): upsert of an
ADDRESS row; on conflict only USED and UTXO are overwritten (IDX and INTERNAL
keep their stored values); USED is set iff the utxo blob is non-empty. -/
def SetAddress (st : WalletDbState) (a : String) (idx : Nat) (internal : Bool)
    (utxo : String) : WalletDbState :=
  if st.rows.any (fun r => r.addr = a) then
    { st with rows := st.rows.map (fun r =>
        if r.addr = a then { r with used := utxo ≠ "", utxo := utxo } else r) }
  else
    { st with rows := st.rows ++
        [{ addr := a, idx := idx, internal := internal, used := utxo ≠ "",
           utxo := utxo }] }

/-- `NunchukWalletDb::AddAddress` (walletdb.cpp 573-581): register the row,
then -- only when `IsMyAddress` is false, i.e. the address is absent from the
(possibly just built) address data -- plant a fresh cache entry with
used = false. -/
def AddAddress (derive : Bool → Nat → String) (st : WalletDbState)
    (a : String) (idx : Nat) (internal : Bool) : WalletDbState :=
  let st1 := SetAddress st a idx internal ""
  let p := GetAllAddressData derive st1
  if (getAssoc p.1 a).isSome then p.2
  else
    match p.2.cache with
    | some m =>
      { p.2 with cache := some (setAssoc m a
          { address := a, index := idx, internal := internal,
            used := false }) }
    | none => p.2

/-- `NunchukWalletDb::SetUtxos` (walletdb.cpp 1083-1089): look the address up
in the address data; if absent return false, otherwise rewrite the row with
the new utxo blob (cache untouched). -/
def SetUtxos (derive : Bool → Nat → String) (st : WalletDbState)
    (a utxo : String) : Bool × WalletDbState :=
  let p := GetAllAddressData derive st
  match getAssoc p.1 a with
  | none => (false, p.2)
  | some d => (true, SetAddress p.2 a d.index d.internal utxo)

/-- The effect on the address state of storing a transaction
(`InsertTransaction`: VTX upsert followed by the trailing `GetTransaction`,
whose read path runs `UseAddress` over every output, walletdb.cpp 731 and
1064). -/
def StoreTransaction (st : WalletDbState) (tx : TxView) : WalletDbState :=
  let newTxs :=
    if st.txs.any (fun t => t.txid = tx.txid) then
      st.txs.map (fun t => if t.txid = tx.txid then tx else t)
    else st.txs ++ [tx]
  let st1 := { st with txs := newTxs }
  tx.outputs.foldl (fun s out => UseAddress s out.1) st1

/-- One entry of an Electrum scripthash history: `{tx_hash, height, fee?}`. -/
structure HistoryItem where
  tx_hash : String
  height : Int
  fee : Option Int
deriving DecidableEq

/-- Pass 1 of `ElectrumSynchronizer::UpdateTransactions` (synchronizer.cpp
104-121): collect into `txs_hash` every history transaction that is not
already stored as CONFIRMED, and record in `founds` whether it is stored at
all. -/
def syncCollect (sigComplete : String → Bool) (store : TxStore)
    (history : List HistoryItem) : List String × (String → Bool) :=
  history.foldl
    (fun acc item =>
      match GetTransaction store item.tx_hash with
      | .ok r =>
        let founds := fun t => if t = item.tx_hash then true else acc.2 t
        if readStatus sigComplete r = .CONFIRMED then (acc.1, founds)
        else (acc.1 ++ [item.tx_hash], founds)
      | .error _ =>
        (acc.1 ++ [item.tx_hash],
         fun t => if t = item.tx_hash then false else acc.2 t))
    ([], fun _ => false)

/-- The per-item upsert shared by both sync paths (synchronizer.cpp 141-152,
181-194): compute block time and clamped height, upsert into the store
(update when the transaction was already stored, insert otherwise, with the
wrapper's empty memo and default change position), and notify the
transaction listener when the synchronizer is READY. -/
def syncUpsert (txidOf : String → String)
    (signersOf : String → List (String × Bool)) (blocktimeOf : Int → Int)
    (ready : Bool) (found : Bool) (store : TxStore)
    (notifs : List (String × TransactionStatus)) (item : HistoryItem)
    (raw : String) : TxStore × List (String × TransactionStatus) :=
  let time := if item.height ≤ 0 then 0 else blocktimeOf item.height
  let fee := item.fee.getD 0
  let h := if item.height ≤ 0 then 0 else item.height
  let st : TransactionStatus :=
    if item.height ≤ 0 then .PENDING_CONFIRMATION else .CONFIRMED
  let store' :=
    if found then (UpdateTransaction txidOf signersOf store raw h time "").2
    else InsertTransaction txidOf store raw h time fee "" (-1)
  (store', if ready then notifs ++ [(item.tx_hash, st)] else notifs)

/-- The eviction sweep closing `UpdateTransactions` (synchronizer.cpp
155-163, 199-205, 262-270): every stored PENDING_CONFIRMATION receive-type
transaction failing the membership test `keep` is deleted and announced as
REPLACED. The wrapper `GetTransactions(chain, wallet, PENDING_CONFIRMATION,
true)` is modelled from the spec (its body is not among the sources) as the
stored transactions with that surfaced status whose send/receive
classification, abstracted by `receivePred`, is receive. -/
def syncEvict (sigComplete : String → Bool) (receivePred : String → Bool)
    (keep : String → Bool) (store : TxStore)
    (notifs : List (String × TransactionStatus)) :
    TxStore × List (String × TransactionStatus) :=
  let pending := store.filter (fun r =>
    readStatus sigComplete r = .PENDING_CONFIRMATION && receivePred r.id)
  pending.foldl
    (fun acc r =>
      if keep r.id then acc
      else ((DeleteTransaction acc.1 r.id).2, acc.2 ++ [(r.id, .REPLACED)]))
    (store, notifs)

/-- `ElectrumSynchronizer::UpdateTransactions`, batch branch (synchronizer.cpp
104-165; the batched overload at 216-271 has the same shape with the fetch
results passed in). `rawtx` is the `get_multi_rawtx` response (a map that may
lack entries), `fallbackFetch` the per-transaction `blockchain_transaction_get`
fallback (`none` = network exception, which only clears `isSynced`). The
eviction sweep keeps exactly the transactions present in the `rawtx`
response. Returns (store, notifications, isSynced). -/
def UpdateTransactionsBatch (txidOf : String → String)
    (signersOf : String → List (String × Bool)) (sigComplete : String → Bool)
    (receivePred : String → Bool) (blocktimeOf : Int → Int) (ready : Bool)
    (store : TxStore) (history : List HistoryItem)
    (rawtx : String → Option String) (fallbackFetch : String → Option String) :
    TxStore × List (String × TransactionStatus) × Bool :=
  let c := syncCollect sigComplete store history
  let step := history.foldl
    (fun (acc : TxStore × List (String × TransactionStatus) × Bool) item =>
      if item.tx_hash ∈ c.1 then
        match rawtx item.tx_hash with
        | some raw =>
          let u := syncUpsert txidOf signersOf blocktimeOf ready
            (c.2 item.tx_hash) acc.1 acc.2.1 item raw
          (u.1, u.2, acc.2.2)
        | none =>
          match fallbackFetch item.tx_hash with
          | some raw =>
            let u := syncUpsert txidOf signersOf blocktimeOf ready
              (c.2 item.tx_hash) acc.1 acc.2.1 item raw
            (u.1, u.2, acc.2.2)
          | none => (acc.1, acc.2.1, false)
      else acc)
    (store, [], true)
  let e := syncEvict sigComplete receivePred (fun t => (rawtx t).isSome)
    step.1 step.2.1
  (e.1, e.2, step.2.2)

/-- `ElectrumSynchronizer::UpdateTransactions`, sequential branch
(synchronizer.cpp 167-206), processing loop: per history item the store is
consulted, the id pushed onto `txs_hash`, the raw transaction fetched (an
exception here aborts the whole call, persisting the mutations already made),
and the row upserted. Returns (aborted, store, txs_hash, notifications). -/
def syncSeqLoop (txidOf : String → String)
    (signersOf : String → List (String × Bool)) (sigComplete : String → Bool)
    (blocktimeOf : Int → Int) (ready : Bool)
    (fetch : String → Option String) :
    List HistoryItem → TxStore → List String →
    List (String × TransactionStatus) →
    Bool × TxStore × List String × List (String × TransactionStatus)
  | [], store, hashes, notifs => (false, store, hashes, notifs)
  | item :: rest, store, hashes, notifs =>
    let proceed := fun (found : Bool) =>
      match fetch item.tx_hash with
      | none => (true, store, hashes ++ [item.tx_hash], notifs)
      | some raw =>
        let u := syncUpsert txidOf signersOf blocktimeOf ready found store
          notifs item raw
        syncSeqLoop txidOf signersOf sigComplete blocktimeOf ready fetch
          rest u.1 (hashes ++ [item.tx_hash]) u.2
    match GetTransaction store item.tx_hash with
    | .ok r =>
      if readStatus sigComplete r = .CONFIRMED then
        syncSeqLoop txidOf signersOf sigComplete blocktimeOf ready fetch
          rest store hashes notifs
      else proceed true
    | .error _ => proceed false

/-- `ElectrumSynchronizer::UpdateTransactions`, sequential branch
(synchronizer.cpp 167-206): run the processing loop; on an abort (network
exception) the exception propagates with the partial mutations persisted and
no eviction; otherwise evict every stored PENDING_CONFIRMATION receive-type
transaction whose id is absent from the sorted `txs_hash` (`std::sort` +
`std::binary_search` = list membership). Returns (result, store,
notifications), `result = .ok isSynced` on completion. -/
def UpdateTransactionsSeq (txidOf : String → String)
    (signersOf : String → List (String × Bool)) (sigComplete : String → Bool)
    (receivePred : String → Bool) (blocktimeOf : Int → Int) (ready : Bool)
    (store : TxStore) (history : List HistoryItem)
    (fetch : String → Option String) :
    Except Unit Bool × TxStore × List (String × TransactionStatus) :=
  let l := syncSeqLoop txidOf signersOf sigComplete blocktimeOf ready fetch
    history store [] []
  if l.1 then (.error (), l.2.1, l.2.2.2)
  else
    let e := syncEvict sigComplete receivePred
      (fun t => l.2.2.1.contains t) l.2.1 l.2.2.2
    (.ok true, e.1, e.2)

/-! ## Generic list helpers -/

theorem find_unique {α : Type} (l : List α) (p : α → Bool) (r : α)
    (hr : r ∈ l) (hp : p r = true) (hu : ∀ x ∈ l, p x = true → x = r) :
    l.find? p = some r := by
  induction l with
  | nil => cases hr
  | cons a t ih =>
    by_cases ha : p a = true
    · rw [List.find?_cons_of_pos _ ha]
      exact congrArg some (hu a (List.mem_cons_self a t) ha)
    · rw [List.find?_cons_of_neg _ (by simpa using ha)]
      rcases List.mem_cons.1 hr with h | h
      · exact absurd (h ▸ hp) ha
      · exact ih h (fun x hx hpx => hu x (List.mem_cons_of_mem _ hx) hpx)

theorem countP_unique {α : Type} (l : List α) (p : α → Bool) (r : α)
    (hr : r ∈ l) (hp : p r = true) (hu : ∀ x ∈ l, p x = true → x = r)
    (hn : l.Nodup) : l.countP p = 1 := by
  induction l with
  | nil => cases hr
  | cons a t ih =>
    rcases List.mem_cons.1 hr with h | h
    · subst h
      rw [List.countP_cons_of_pos _ _ hp]
      have : t.countP p = 0 := by
        rw [List.countP_eq_zero]
        intro x hx hpx
        exact (List.nodup_cons.1 hn).1 ((hu x (List.mem_cons_of_mem _ hx) hpx) ▸ hx)
      omega
    · have ha : p a = false := by
        by_contra hc
        have := hu a (List.mem_cons_self a t) (by simpa using hc)
        subst this
        exact (List.nodup_cons.1 hn).1 h
      rw [List.countP_cons_of_neg _ _ (by simp [ha])]
      exact ih h (fun x hx hpx => hu x (List.mem_cons_of_mem _ hx) hpx)
        (List.nodup_cons.1 hn).2

theorem find_append_none {α : Type} (l₁ l₂ : List α) (p : α → Bool)
    (h : l₁.find? p = none) : (l₁ ++ l₂).find? p = l₂.find? p := by
  induction l₁ with
  | nil => rfl
  | cons a t ih =>
    have ha : ¬ p a = true := by
      intro hc
      rw [List.find?_cons_of_pos _ hc] at h
      exact Option.noConfusion h
    rw [List.find?_cons_of_neg _ ha] at h
    rw [List.cons_append, List.find?_cons_of_neg _ ha]
    exact ih h

theorem nodup_of_map_nodup {α β : Type} (f : α → β) (l : List α)
    (h : (l.map f).Nodup) : l.Nodup :=
  List.Nodup.of_map f h

theorem find_map_presv {α : Type} (l : List α) (f : α → α) (p : α → Bool)
    (hf : ∀ x, p (f x) = p x) :
    (l.map f).find? p = (l.find? p).map f := by
  induction l with
  | nil => rfl
  | cons a t ih =>
    by_cases ha : p a = true
    · rw [List.map_cons, List.find?_cons_of_pos _ (by rw [hf]; exact ha),
        List.find?_cons_of_pos _ ha]
      rfl
    · rw [List.map_cons, List.find?_cons_of_neg _ (by rw [hf]; simpa using ha),
        List.find?_cons_of_neg _ ha]
      exact ih

theorem countP_map_presv {α : Type} (l : List α) (f : α → α) (p : α → Bool)
    (hf : ∀ x, p (f x) = p x) :
    (l.map f).countP p = l.countP p := by
  induction l with
  | nil => rfl
  | cons a t ih =>
    by_cases ha : p a = true
    · rw [List.map_cons, List.countP_cons_of_pos _ _ (by rw [hf]; exact ha),
        List.countP_cons_of_pos _ _ ha, ih]
    · rw [List.map_cons,
        List.countP_cons_of_neg _ _ (by rw [hf]; simpa using ha),
        List.countP_cons_of_neg _ _ ha, ih]

/-- Under the primary-key invariant, two stored rows with equal ids are the
same row. -/
theorem txrow_unique (s : TxStore) (hn : (s.map TxRow.id).Nodup)
    (r : TxRow) (hr : r ∈ s) :
    ∀ x ∈ s, x.id = r.id → x = r := by
  intro x hx hid
  exact List.inj_on_of_nodup_map hn hx hr hid

/-! ## C4: InsertTransaction idempotent upsert -/

/-- C4: when the store already holds a row whose id equals the id derived
from `raw`, `InsertTransaction` leaves exactly one row for that id, whose
payload and height are the latest call's arguments while fee, memo, change
position, blocktime and extra are unchanged; rows with other ids are
untouched. -/
theorem insertTransaction_upsert (txidOf : String → String) (s : TxStore)
    (raw : String) (h bt fee : Int) (memo : String) (cp : Int) (r : TxRow)
    (hn : (s.map TxRow.id).Nodup) (hr : r ∈ s) (hid : r.id = txidOf raw) :
    (InsertTransaction txidOf s raw h bt fee memo cp).countP
        (fun x => x.id = txidOf raw) = 1 ∧
    GetTransaction (InsertTransaction txidOf s raw h bt fee memo cp)
        (txidOf raw) = .ok { r with value := raw, height := h } ∧
    ∀ x ∈ s, x.id ≠ txidOf raw →
      x ∈ InsertTransaction txidOf s raw h bt fee memo cp := by
  have hany : s.any (fun x => x.id = txidOf raw) = true := by
    simp only [List.any_eq_true]
    exact ⟨r, hr, by simp [hid]⟩
  have huniq := txrow_unique s hn r hr
  have hu : ∀ x ∈ s, (decide (x.id = txidOf raw)) = true → x = r := by
    intro x hx hpx
    exact huniq x hx (by rw [hid]; simpa using hpx)
  have hpres : ∀ x : TxRow,
      (decide (((if x.id = txidOf raw then
          ({ x with value := raw, height := h } : TxRow)
        else x) : TxRow).id = txidOf raw)) = decide (x.id = txidOf raw) := by
    intro x
    by_cases hx : x.id = txidOf raw <;> simp [hx]
  unfold InsertTransaction
  rw [hany]
  simp only [if_true]
  refine ⟨?_, ?_, ?_⟩
  · rw [countP_map_presv s _ _ hpres]
    exact countP_unique s _ r hr (by simp [hid]) hu (nodup_of_map_nodup _ _ hn)
  · unfold GetTransaction
    rw [find_map_presv s _ _ hpres,
      find_unique s _ r hr (by simp [hid]) hu]
    simp [hid]
  · intro x hx hxid
    refine List.mem_map.2 ⟨x, hx, ?_⟩
    simp [hxid]

/-- Witness for C4 at a concrete store. -/
theorem insertTransaction_upsert_witness :
    (InsertTransaction (fun _ => "t1")
        [{ id := "t1", value := "old", height := 0, fee := 2, memo := "m",
           changePos := 1, blocktime := 5, extra := {} }]
        "raw1" 7 9 3 "x" 0).countP (fun x => x.id = "t1") = 1 ∧
    GetTransaction (InsertTransaction (fun _ => "t1")
        [{ id := "t1", value := "old", height := 0, fee := 2, memo := "m",
           changePos := 1, blocktime := 5, extra := {} }]
        "raw1" 7 9 3 "x" 0) "t1" =
      .ok { id := "t1", value := "raw1", height := 7, fee := 2, memo := "m",
            changePos := 1, blocktime := 5, extra := {} } ∧
    ∀ x ∈ ([{ id := "t1", value := "old", height := 0, fee := 2, memo := "m",
              changePos := 1, blocktime := 5, extra := {} }] : TxStore),
      x.id ≠ "t1" →
      x ∈ InsertTransaction (fun _ => "t1")
        [{ id := "t1", value := "old", height := 0, fee := 2, memo := "m",
           changePos := 1, blocktime := 5, extra := {} }] "raw1" 7 9 3 "x" 0 :=
  insertTransaction_upsert (fun _ => "t1")
    [{ id := "t1", value := "old", height := 0, fee := 2, memo := "m",
       changePos := 1, blocktime := 5, extra := {} }]
    "raw1" 7 9 3 "x" 0
    { id := "t1", value := "old", height := 0, fee := 2, memo := "m",
      changePos := 1, blocktime := 5, extra := {} }
    (by decide) (List.mem_singleton.2 rfl) rfl

/-! ## C7: UpdatePsbtTxId -/

/-- C7: when an unbroadcast row with the old id exists, `UpdatePsbtTxId`
succeeds, `GetTransaction` under the new id returns the original payload,
fee, memo, change position and extra (with height -1 and blocktime 0), and
`GetTransaction` under the old id fails with TX_NOT_FOUND; when no
unbroadcast row with the old id exists, the call fails with TX_NOT_FOUND and
leaves the store unchanged. -/
theorem updatePsbtTxId_spec :
    (∀ (s : TxStore) (oldId newId : String) (r : TxRow),
      (s.map TxRow.id).Nodup → r ∈ s → r.id = oldId → r.height = -1 →
      oldId ≠ newId → (∀ x ∈ s, x.id ≠ newId) →
      (UpdatePsbtTxId s oldId newId).1 = .ok true ∧
      GetTransaction (UpdatePsbtTxId s oldId newId).2 newId =
        .ok { id := newId, value := r.value, height := -1, fee := r.fee,
              memo := r.memo, changePos := r.changePos, blocktime := 0,
              extra := r.extra } ∧
      GetTransaction (UpdatePsbtTxId s oldId newId).2 oldId =
        .error .TX_NOT_FOUND) ∧
    (∀ (s : TxStore) (oldId newId : String),
      (∀ x ∈ s, ¬(x.id = oldId ∧ x.height = -1)) →
      UpdatePsbtTxId s oldId newId = (.error .TX_NOT_FOUND, s)) := by
  constructor
  · intro s oldId newId r hn hr hrid hrh hne hnew
    have huniq := txrow_unique s hn r hr
    have hfind : s.find? (fun x => x.id = oldId && x.height = -1) = some r := by
      apply find_unique s _ r hr (by simp [hrid, hrh])
      intro x hx hpx
      simp only [Bool.and_eq_true, decide_eq_true_eq] at hpx
      exact huniq x hx (by rw [hrid]; exact hpx.1)
    unfold UpdatePsbtTxId
    rw [hfind]
    simp only
    unfold DeleteTransaction
    refine ⟨?_, ?_, ?_⟩
    · have hcount : (s ++
          [({ id := newId, value := r.value, height := -1, fee := r.fee,
              memo := r.memo, changePos := r.changePos, blocktime := 0,
              extra := r.extra } : TxRow)]).countP
            (fun x => x.id = oldId) = 1 := by
        rw [List.countP_append]
        have h1 : s.countP (fun x => x.id = oldId) = 1 := by
          apply countP_unique s _ r hr (by simp [hrid])
          · intro x hx hpx
            exact huniq x hx (by rw [hrid]; simpa using hpx)
          · exact nodup_of_map_nodup _ _ hn
        have h2 : List.countP (fun x => decide (TxRow.id x = oldId))
            [{ id := newId, value := r.value, height := -1, fee := r.fee,
               memo := r.memo, changePos := r.changePos, blocktime := 0,
               extra := r.extra }] = 0 := by
          simp [List.countP, List.countP.go, Ne.symm hne]
        rw [h1, h2]
      simp [hcount]
    · unfold GetTransaction
      rw [List.filter_append]
      have hleft : (s.filter (fun x => x.id ≠ oldId)).find?
          (fun x => x.id = newId) = none := by
        rw [List.find?_eq_none]
        intro x hx
        have := hnew x (List.mem_of_mem_filter hx)
        simp [this]
      rw [find_append_none _ _ _ hleft]
      simp [Ne.symm hne]
    · unfold GetTransaction
      have : (List.filter (fun x : TxRow => x.id ≠ oldId)
          (s ++ [({ id := newId, value := r.value, height := -1, fee := r.fee,
                    memo := r.memo, changePos := r.changePos, blocktime := 0,
                    extra := r.extra } : TxRow)])).find?
          (fun x => x.id = oldId) = none := by
        rw [List.find?_eq_none]
        intro x hx
        have hxm := List.of_mem_filter hx
        simpa using hxm
      rw [this]
  · intro s oldId newId hno
    have hfind : s.find? (fun x => x.id = oldId && x.height = -1) = none := by
      rw [List.find?_eq_none]
      intro x hx
      have := hno x hx
      simp only [Bool.and_eq_true, decide_eq_true_eq]
      tauto
    unfold UpdatePsbtTxId
    rw [hfind]

/-- Witness for C7 at a concrete store. -/
theorem updatePsbtTxId_spec_witness :
    ((UpdatePsbtTxId
        [{ id := "oldid", value := "psbt0", height := -1, fee := 4,
           memo := "mm", changePos := 2, blocktime := 3, extra := {} }]
        "oldid" "newid").1 = .ok true ∧
      GetTransaction (UpdatePsbtTxId
        [{ id := "oldid", value := "psbt0", height := -1, fee := 4,
           memo := "mm", changePos := 2, blocktime := 3, extra := {} }]
        "oldid" "newid").2 "newid" =
        .ok { id := "newid", value := "psbt0", height := -1, fee := 4,
              memo := "mm", changePos := 2, blocktime := 0, extra := {} } ∧
      GetTransaction (UpdatePsbtTxId
        [{ id := "oldid", value := "psbt0", height := -1, fee := 4,
           memo := "mm", changePos := 2, blocktime := 3, extra := {} }]
        "oldid" "newid").2 "oldid" = .error .TX_NOT_FOUND) ∧
    UpdatePsbtTxId ([] : TxStore) "oldid" "newid" =
      (.error .TX_NOT_FOUND, []) :=
  ⟨updatePsbtTxId_spec.1
      [{ id := "oldid", value := "psbt0", height := -1, fee := 4,
         memo := "mm", changePos := 2, blocktime := 3, extra := {} }]
      "oldid" "newid"
      { id := "oldid", value := "psbt0", height := -1, fee := 4,
        memo := "mm", changePos := 2, blocktime := 3, extra := {} }
      (by decide) (List.mem_singleton.2 rfl) rfl rfl (by decide)
      (by intro x hx; rw [List.mem_singleton.1 hx]; decide),
   updatePsbtTxId_spec.2 [] "oldid" "newid" (by intro x hx; cases hx)⟩

/-! ## C10: UpdateTransaction on an unbroadcast row -/

/-- C10: calling `UpdateTransaction` with height -1 throws TX_NOT_FOUND and
leaves every stored row unchanged when no unbroadcast row with the derived id
exists; when one exists, the call succeeds and rewrites only that row's
payload and the signer snapshot inside its extra, every other field and row
being untouched. -/
theorem updateTransaction_unbroadcast_spec :
    (∀ (txidOf : String → String)
       (signersOf : String → List (String × Bool)) (s : TxStore)
       (raw : String) (bt : Int) (rej : String),
      (∀ x ∈ s, ¬(x.id = txidOf raw ∧ x.height = -1)) →
      UpdateTransaction txidOf signersOf s raw (-1) bt rej =
        (.error .TX_NOT_FOUND, s)) ∧
    (∀ (txidOf : String → String)
       (signersOf : String → List (String × Bool)) (s : TxStore)
       (raw : String) (bt : Int) (rej : String) (r : TxRow),
      (s.map TxRow.id).Nodup → r ∈ s → r.id = txidOf raw → r.height = -1 →
      (UpdateTransaction txidOf signersOf s raw (-1) bt rej).1 = .ok true ∧
      GetTransaction
          (UpdateTransaction txidOf signersOf s raw (-1) bt rej).2
          (txidOf raw) =
        .ok { r with
              value := raw,
              extra := { r.extra with signers := some (signersOf raw) } } ∧
      ∀ x ∈ s, x.id ≠ txidOf raw →
        x ∈ (UpdateTransaction txidOf signersOf s raw (-1) bt rej).2) := by
  constructor
  · intro txidOf signersOf s raw bt rej hno
    have hfind : s.find? (fun x => x.id = txidOf raw && x.height = -1) =
        none := by
      rw [List.find?_eq_none]
      intro x hx
      have := hno x hx
      simp only [Bool.and_eq_true, decide_eq_true_eq]
      tauto
    simp [UpdateTransaction, hfind]
  · intro txidOf signersOf s raw bt rej r hn hr hrid hrh
    have huniq := txrow_unique s hn r hr
    have hfind : s.find? (fun x => x.id = txidOf raw && x.height = -1) =
        some r := by
      apply find_unique s _ r hr (by simp [hrid, hrh])
      intro x hx hpx
      simp only [Bool.and_eq_true, decide_eq_true_eq] at hpx
      exact huniq x hx (by rw [hrid]; exact hpx.1)
    have hpres : ∀ x : TxRow,
        (decide (((if x.id = txidOf raw then
            ({ x with
               value := raw,
               extra := { x.extra with signers := some (signersOf raw) } } :
              TxRow)
          else x) : TxRow).id = txidOf raw)) =
          decide (x.id = txidOf raw) := by
      intro x
      by_cases hx : x.id = txidOf raw <;> simp [hx]
    unfold UpdateTransaction
    rw [if_pos (show ((-1 : Int) = -1) from rfl)]
    simp only [hfind]
    refine ⟨?_, ?_, ?_⟩
    · have hcount : s.countP (fun x => x.id = txidOf raw) = 1 := by
        apply countP_unique s _ r hr (by simp [hrid])
        · intro x hx hpx
          exact huniq x hx (by rw [hrid]; simpa using hpx)
        · exact nodup_of_map_nodup _ _ hn
      simp [hcount]
    · unfold GetTransaction
      rw [find_map_presv s _ _ hpres,
        find_unique s _ r hr (by simp [hrid]) (fun x hx hpx =>
          huniq x hx (by rw [hrid]; simpa using hpx))]
      simp [hrid]
    · intro x hx hxid
      refine List.mem_map.2 ⟨x, hx, ?_⟩
      simp [hxid]

/-- Witness for C10 at a concrete store. -/
theorem updateTransaction_unbroadcast_witness :
    UpdateTransaction (fun _ => "p1") (fun _ => [("s1", true)])
        [{ id := "q9", value := "v", height := 0, fee := 0, memo := "",
           changePos := 0, blocktime := 0, extra := {} }] "rawp" (-1) 4 "" =
      (.error .TX_NOT_FOUND,
        [{ id := "q9", value := "v", height := 0, fee := 0, memo := "",
           changePos := 0, blocktime := 0, extra := {} }]) ∧
    ((UpdateTransaction (fun _ => "p1") (fun _ => [("s1", true)])
        [{ id := "p1", value := "psbt", height := -1, fee := 6, memo := "z",
           changePos := 1, blocktime := 2, extra := {} }] "rawp" (-1) 4
        "").1 = .ok true ∧
      GetTransaction (UpdateTransaction (fun _ => "p1")
          (fun _ => [("s1", true)])
          [{ id := "p1", value := "psbt", height := -1, fee := 6, memo := "z",
             changePos := 1, blocktime := 2, extra := {} }] "rawp" (-1) 4
          "").2 "p1" =
        .ok { id := "p1", value := "rawp", height := -1, fee := 6,
              memo := "z", changePos := 1, blocktime := 2,
              extra := { signers := some [("s1", true)] } } ∧
      ∀ x ∈ ([{ id := "p1", value := "psbt", height := -1, fee := 6,
                memo := "z", changePos := 1, blocktime := 2,
                extra := {} }] : TxStore),
        x.id ≠ "p1" →
        x ∈ (UpdateTransaction (fun _ => "p1") (fun _ => [("s1", true)])
          [{ id := "p1", value := "psbt", height := -1, fee := 6, memo := "z",
             changePos := 1, blocktime := 2, extra := {} }] "rawp" (-1) 4
          "").2) :=
  ⟨updateTransaction_unbroadcast_spec.1 (fun _ => "p1")
      (fun _ => [("s1", true)])
      [{ id := "q9", value := "v", height := 0, fee := 0, memo := "",
         changePos := 0, blocktime := 0, extra := {} }] "rawp" 4 ""
      (by intro x hx; rw [List.mem_singleton.1 hx]; decide),
   updateTransaction_unbroadcast_spec.2 (fun _ => "p1")
      (fun _ => [("s1", true)])
      [{ id := "p1", value := "psbt", height := -1, fee := 6, memo := "z",
         changePos := 1, blocktime := 2, extra := {} }] "rawp" 4 ""
      { id := "p1", value := "psbt", height := -1, fee := 6, memo := "z",
        changePos := 1, blocktime := 2, extra := {} }
      (by decide) (List.mem_singleton.2 rfl) rfl rfl⟩

/-! ## C5: replacement chain propagation -/

/-- The height-derived status is never REPLACED; REPLACED only ever arises
from the `FillExtra` refinement. -/
theorem statusFromHeight_ne_replaced (b : Bool) (h : Int) :
    statusFromHeight b h ≠ .REPLACED := by
  unfold statusFromHeight
  split
  · split <;> simp
  · split <;> simp

/-- Counterexample to C5 as stated: store holding unbroadcast transaction
"b" with `extra.replace_txid = "a"` and pending transaction "a"; updating
"b" directly to the broadcast height 1 (which is `>= 0`) succeeds but does
NOT set `replaced_by_txid` on "a" (the propagation only runs on the
height-0 path), so no row carries a replacement back-link afterwards. -/
theorem updateTransaction_replacement_counterexample :
    ((UpdateTransaction (fun _ => "b") (fun _ => [])
        [{ id := "b", value := "psbtB", height := -1, fee := 0, memo := "",
           changePos := 0, blocktime := 0,
           extra := { replace_txid := some "a" } },
         { id := "a", value := "rawA", height := 0, fee := 0, memo := "",
           changePos := 0, blocktime := 0, extra := {} }]
        "rawB" 1 99 "").1 = Except.ok true) ∧
    ((UpdateTransaction (fun _ => "b") (fun _ => [])
        [{ id := "b", value := "psbtB", height := -1, fee := 0, memo := "",
           changePos := 0, blocktime := 0,
           extra := { replace_txid := some "a" } },
         { id := "a", value := "rawA", height := 0, fee := 0, memo := "",
           changePos := 0, blocktime := 0, extra := {} }]
        "rawB" 1 99 "").2.map
        (fun r => (r.id, r.height, r.extra.replaced_by_txid))) =
      [("b", 1, none), ("a", 0, none)] := by
  constructor
  · rfl
  · rfl

/-- C5 (amended): for an unbroadcast transaction B stored with
`extra.replace_txid = A`, updating B via `UpdateTransaction` to height 0
(the pending-confirmation broadcast height; updating straight to a confirmed
height > 0 does not propagate) sets A's `extra.replaced_by_txid` to B's
txid, B remains queryable by its own id with the new payload and height, and
A's status is surfaced as REPLACED exactly when A's stored height-derived
status at read time is PENDING_CONFIRMATION. -/
theorem updateTransaction_replacement (txidOf : String → String)
    (signersOf : String → List (String × Bool)) (s : TxStore) (raw : String)
    (bt : Int) (rej : String) (rB rA : TxRow) (A : String)
    (hn : (s.map TxRow.id).Nodup) (hB : rB ∈ s) (hBid : rB.id = txidOf raw)
    (hBh : rB.height = -1) (hBrep : rB.extra.replace_txid = some A)
    (hA : rA ∈ s) (hAid : rA.id = A) (hAB : A ≠ txidOf raw) :
    GetTransaction (UpdateTransaction txidOf signersOf s raw 0 bt rej).2 A =
      .ok { rA with
            extra := { rA.extra with
                       replaced_by_txid := some (txidOf raw) } } ∧
    (∃ rB', GetTransaction
        (UpdateTransaction txidOf signersOf s raw 0 bt rej).2 (txidOf raw) =
        .ok rB' ∧ rB'.value = raw ∧ rB'.height = 0) ∧
    ∀ (sigc : String → Bool) (rA' : TxRow),
      GetTransaction (UpdateTransaction txidOf signersOf s raw 0 bt rej).2 A =
        .ok rA' →
      (readStatus sigc rA' = .REPLACED ↔
        statusFromHeight (sigc rA'.value) rA'.height =
          .PENDING_CONFIRMATION) := by
  have huniq := txrow_unique s hn
  have hfound : s.find? (fun x => x.id = txidOf raw && x.height = -1) =
      some rB := by
    apply find_unique s _ rB hB (by simp [hBid, hBh])
    intro x hx hpx
    simp only [Bool.and_eq_true, decide_eq_true_eq] at hpx
    exact huniq rB hB x hx (by rw [hBid]; exact hpx.1)
  have hany : s.any (fun x => x.id = A) = true := by
    simp only [List.any_eq_true]
    exact ⟨rA, hA, by simp [hAid]⟩
  have hred : (UpdateTransaction txidOf signersOf s raw 0 bt rej).2 =
      (SetReplacedBy s A (txidOf raw)).map (fun r =>
        if r.id = txidOf raw then
          { r with
            value := raw,
            height := 0,
            blocktime := bt,
            extra :=
              (if rej ≠ "" then
                ({ rB.extra with
                   signers := some (signersOf rB.value),
                   reject_msg := some rej } : Extra)
               else
                ({ rB.extra with
                   signers := some (signersOf rB.value) } : Extra)) }
        else r) := by
    unfold UpdateTransaction
    rw [if_neg (by decide)]
    simp only [if_pos (show ((0 : Int) ≤ 0) from by decide), hfound, hBrep]
    by_cases hrej : rej ≠ "" <;> simp [hrej] <;> intro a ha <;> rw [hBrep]
  have hset : SetReplacedBy s A (txidOf raw) =
      s.map (fun x => if x.id = A then
        { x with extra := { x.extra with
                            replaced_by_txid := some (txidOf raw) } }
        else x) := by
    unfold SetReplacedBy
    rw [hany]
    simp
  have hApres : ∀ x : TxRow,
      (decide (((if x.id = A then
          ({ x with extra := { x.extra with
              replaced_by_txid := some (txidOf raw) } } : TxRow)
        else x) : TxRow).id = A)) = decide (x.id = A) := by
    intro x
    by_cases hx : x.id = A <;> simp [hx]
  have hApresB : ∀ x : TxRow,
      (decide (((if x.id = A then
          ({ x with extra := { x.extra with
              replaced_by_txid := some (txidOf raw) } } : TxRow)
        else x) : TxRow).id = txidOf raw)) =
        decide (x.id = txidOf raw) := by
    intro x
    by_cases hx : x.id = A <;> simp [hx]
  have hBpres : ∀ (e : Extra) (x : TxRow),
      (decide (((if x.id = txidOf raw then
          ({ x with value := raw, height := 0, blocktime := bt, extra := e } :
            TxRow)
        else x) : TxRow).id = txidOf raw)) =
        decide (x.id = txidOf raw) := by
    intro e x
    by_cases hx : x.id = txidOf raw <;> simp [hx]
  have hBpresA : ∀ (e : Extra) (x : TxRow),
      (decide (((if x.id = txidOf raw then
          ({ x with value := raw, height := 0, blocktime := bt, extra := e } :
            TxRow)
        else x) : TxRow).id = A)) = decide (x.id = A) := by
    intro e x
    by_cases hx : x.id = txidOf raw <;> simp [hx]
  have hgetA : GetTransaction
      (UpdateTransaction txidOf signersOf s raw 0 bt rej).2 A =
      .ok { rA with
            extra := { rA.extra with
                       replaced_by_txid := some (txidOf raw) } } := by
    rw [hred, hset]
    unfold GetTransaction
    rw [find_map_presv _ _ _ (hBpresA _), find_map_presv _ _ _ hApres,
      find_unique s _ rA hA (by simp [hAid]) (fun x hx hpx =>
        huniq rA hA x hx (by rw [hAid]; simpa using hpx))]
    simp [hAid, hAB]
  refine ⟨hgetA, ?_, ?_⟩
  · rw [hred, hset]
    unfold GetTransaction
    rw [find_map_presv _ _ _ (hBpres _), find_map_presv _ _ _ hApresB,
      find_unique s _ rB hB (by simp [hBid]) (fun x hx hpx =>
        huniq rB hB x hx (by rw [hBid]; simpa using hpx))]
    have hBA : ¬ rB.id = A := by rw [hBid]; exact Ne.symm hAB
    simp only [Option.map_some', if_neg hBA, if_pos hBid]
    exact ⟨_, rfl, rfl, rfl⟩
  · intro sigc rA' hget
    rw [hgetA] at hget
    have hEq : ({ rA with
        extra := { rA.extra with replaced_by_txid := some (txidOf raw) } } :
        TxRow) = rA' := Except.ok.inj hget
    subst hEq
    unfold readStatus fillExtraStatus
    constructor
    · intro hrep
      by_cases hpc : statusFromHeight
          (sigc ({ rA with extra := { rA.extra with
            replaced_by_txid := some (txidOf raw) } } : TxRow).value)
          ({ rA with extra := { rA.extra with
            replaced_by_txid := some (txidOf raw) } } : TxRow).height =
          .PENDING_CONFIRMATION
      · exact hpc
      · rw [if_neg (by simp [hpc])] at hrep
        exact absurd hrep (statusFromHeight_ne_replaced _ _)
    · intro hpc
      rw [if_pos (by simp [hpc])]

/-- Witness for the amended C5 at a concrete store. -/
theorem updateTransaction_replacement_witness :
    GetTransaction (UpdateTransaction (fun _ => "b") (fun _ => [])
        [{ id := "b", value := "psbtB", height := -1, fee := 0, memo := "",
           changePos := 0, blocktime := 0,
           extra := { replace_txid := some "a" } },
         { id := "a", value := "rawA", height := 0, fee := 0, memo := "",
           changePos := 0, blocktime := 0, extra := {} }]
        "rawB" 0 99 "").2 "a" =
      .ok { id := "a", value := "rawA", height := 0, fee := 0, memo := "",
            changePos := 0, blocktime := 0,
            extra := { replaced_by_txid := some "b" } } ∧
    (∃ rB', GetTransaction (UpdateTransaction (fun _ => "b") (fun _ => [])
        [{ id := "b", value := "psbtB", height := -1, fee := 0, memo := "",
           changePos := 0, blocktime := 0,
           extra := { replace_txid := some "a" } },
         { id := "a", value := "rawA", height := 0, fee := 0, memo := "",
           changePos := 0, blocktime := 0, extra := {} }]
        "rawB" 0 99 "").2 "b" = .ok rB' ∧ rB'.value = "rawB" ∧
        rB'.height = 0) ∧
    ∀ (sigc : String → Bool) (rA' : TxRow),
      GetTransaction (UpdateTransaction (fun _ => "b") (fun _ => [])
        [{ id := "b", value := "psbtB", height := -1, fee := 0, memo := "",
           changePos := 0, blocktime := 0,
           extra := { replace_txid := some "a" } },
         { id := "a", value := "rawA", height := 0, fee := 0, memo := "",
           changePos := 0, blocktime := 0, extra := {} }]
        "rawB" 0 99 "").2 "a" = .ok rA' →
      (readStatus sigc rA' = .REPLACED ↔
        statusFromHeight (sigc rA'.value) rA'.height =
          .PENDING_CONFIRMATION) :=
  updateTransaction_replacement (fun _ => "b") (fun _ => [])
    [{ id := "b", value := "psbtB", height := -1, fee := 0, memo := "",
       changePos := 0, blocktime := 0,
       extra := { replace_txid := some "a" } },
     { id := "a", value := "rawA", height := 0, fee := 0, memo := "",
       changePos := 0, blocktime := 0, extra := {} }]
    "rawB" 99 ""
    { id := "b", value := "psbtB", height := -1, fee := 0, memo := "",
      changePos := 0, blocktime := 0, extra := { replace_txid := some "a" } }
    { id := "a", value := "rawA", height := 0, fee := 0, memo := "",
      changePos := 0, blocktime := 0, extra := {} }
    "a" (by decide) (by decide) rfl rfl rfl (by decide) rfl (by decide)

/-! ## Address-cache toolkit -/

theorem getAssoc_nil {α : Type} (k : String) :
    getAssoc ([] : List (String × α)) k = none := rfl

theorem getAssoc_cons {α : Type} (k1 : String) (v : α)
    (m : List (String × α)) (k : String) :
    getAssoc ((k1, v) :: m) k = if k1 = k then some v else getAssoc m k := by
  by_cases h : k1 = k
  · simp [getAssoc, List.find?_cons_of_pos, h]
  · rw [if_neg h]
    unfold getAssoc
    rw [List.find?_cons_of_neg _ (by simpa using h)]

theorem getAssoc_set_same {α : Type} (m : List (String × α)) (k : String)
    (v : α) : getAssoc (setAssoc m k v) k = some v := by
  induction m with
  | nil => simp [setAssoc, getAssoc_cons]
  | cons p rest ih =>
    unfold setAssoc
    by_cases h : p.1 = k
    · simp only [h, if_pos rfl]
      simp [getAssoc_cons]
    · rw [if_neg h]
      rw [getAssoc_cons, if_neg h]
      exact ih

theorem getAssoc_set_other {α : Type} (m : List (String × α)) (k k' : String)
    (v : α) (h : k ≠ k') :
    getAssoc (setAssoc m k v) k' = getAssoc m k' := by
  induction m with
  | nil => simp [setAssoc, getAssoc_cons, h, getAssoc_nil]
  | cons p rest ih =>
    unfold setAssoc
    by_cases hp : p.1 = k
    · rw [if_pos hp]
      rw [getAssoc_cons, getAssoc_cons, if_neg h, hp, if_neg h]
    · rw [if_neg hp]
      rw [getAssoc_cons, getAssoc_cons]
      by_cases hp' : p.1 = k'
      · rw [if_pos hp', if_pos hp']
      · rw [if_neg hp', if_neg hp', ih]

/-- The addresses referenced by a transaction list (outputs, in scan order). -/
def addrsOf (txs : List TxView) : List String :=
  txs.flatMap (fun tx => tx.outputs.map (·.1))

/-- The nested marking loop of `GetAllAddressData` is the linear `UseAddress`
fold over all referenced output addresses. -/
theorem markLoop_eq_foldl (txs : List TxView) (st : WalletDbState) :
    txs.foldl (fun s tx => tx.outputs.foldl (fun s out => UseAddress s out.1) s)
      st = (addrsOf txs).foldl UseAddress st := by
  induction txs generalizing st with
  | nil => rfl
  | cons tx rest ih =>
    unfold addrsOf
    rw [List.flatMap_cons, List.foldl_append]
    show rest.foldl _ (tx.outputs.foldl (fun s out => UseAddress s out.1) st) =
      (addrsOf rest).foldl UseAddress
        ((tx.outputs.map (·.1)).foldl UseAddress st)
    rw [← List.foldl_map (·.1) UseAddress tx.outputs st, ih]

theorem getAssoc_map_key {α : Type} (m : List (String × α))
    (g : String → α → α) (k : String) :
    getAssoc (m.map (fun p => (p.1, g p.1 p.2))) k =
      (getAssoc m k).map (g k) := by
  induction m with
  | nil => rfl
  | cons p rest ih =>
    rcases p with ⟨k1, v⟩
    rw [List.map_cons, getAssoc_cons, getAssoc_cons]
    by_cases h : k1 = k
    · subst h
      rw [if_pos rfl, if_pos rfl]
      rfl
    · rw [if_neg h, if_neg h, ih]

/-- Effect of a single `UseAddress` on the cache: keys, indices and branches
are untouched; the entry for the requested (cached, non-empty) address has
its used flag set. -/
theorem useAddress_cache (st : WalletDbState)
    (m : List (String × AddressData)) (a : String) (hm : st.cache = some m) :
    (UseAddress st a).rows = st.rows ∧ (UseAddress st a).txs = st.txs ∧
    ∃ m2, (UseAddress st a).cache = some m2 ∧
      ∀ k, getAssoc m2 k =
        if k = a ∧ a ≠ "" ∧ (getAssoc m a).isSome then
          (getAssoc m k).map (fun d => { d with used := true })
        else getAssoc m k := by
  unfold UseAddress
  by_cases ha : a = ""
  · rw [if_pos ha]
    refine ⟨rfl, rfl, m, hm, ?_⟩
    intro k
    rw [if_neg (by simp [ha])]
  · rw [if_neg ha, hm]
    simp only
    by_cases hs : (getAssoc m a).isSome
    · rw [if_pos hs]
      refine ⟨rfl, rfl, _, rfl, ?_⟩
      intro k
      have hfun : (fun p : String × AddressData =>
          if p.1 = a then (p.1, { p.2 with used := true }) else p) =
          (fun p : String × AddressData =>
            (p.1, if p.1 = a then { p.2 with used := true } else p.2)) := by
        funext p
        by_cases hp : p.1 = a <;> simp [hp]
      rw [hfun, getAssoc_map_key m
        (fun key d => if key = a then { d with used := true } else d) k]
      by_cases hk : k = a
      · rw [if_pos ⟨hk, ha, hs⟩]
        subst hk
        cases getAssoc m k with
        | none => rfl
        | some d => simp
      · rw [if_neg (by simp [hk])]
        cases getAssoc m k with
        | none => rfl
        | some d => simp [hk]
    · rw [if_neg hs]
      refine ⟨rfl, rfl, m, hm, ?_⟩
      intro k
      rw [if_neg (by simp [hs])]

/-- Effect of a `UseAddress` fold on the cache: every cached entry whose key
occurs in the scanned (non-empty) address list ends up marked used; all other
entries are untouched; rows and transactions are untouched. -/
theorem foldUse_cache (as : List String) (st : WalletDbState)
    (m : List (String × AddressData)) (hm : st.cache = some m) :
    ((as.foldl UseAddress st).rows = st.rows ∧
     (as.foldl UseAddress st).txs = st.txs) ∧
    ∃ m2, (as.foldl UseAddress st).cache = some m2 ∧
      ∀ k, getAssoc m2 k =
        if k ∈ as ∧ k ≠ "" ∧ (getAssoc m k).isSome then
          (getAssoc m k).map (fun d => { d with used := true })
        else getAssoc m k := by
  induction as generalizing st m with
  | nil =>
    refine ⟨⟨rfl, rfl⟩, m, hm, ?_⟩
    intro k
    rw [if_neg (by simp)]
  | cons a rest ih =>
    obtain ⟨hrows, htxs, m1, hm1, hchar⟩ := useAddress_cache st m a hm
    obtain ⟨⟨hrows2, htxs2⟩, m2, hm2, hchar2⟩ := ih (UseAddress st a) m1 hm1
    rw [List.foldl_cons]
    refine ⟨⟨by rw [hrows2, hrows], by rw [htxs2, htxs]⟩, m2, hm2, ?_⟩
    intro k
    have hsome : (getAssoc m1 k).isSome = (getAssoc m k).isSome := by
      rw [hchar k]
      by_cases hc : k = a ∧ a ≠ "" ∧ (getAssoc m a).isSome
      · rw [if_pos hc]
        rcases hc with ⟨hka, _, hs⟩
        subst hka
        simp
      · rw [if_neg hc]
    rw [hchar2 k]
    by_cases hk1 : k ∈ rest ∧ k ≠ "" ∧ (getAssoc m1 k).isSome
    · rw [if_pos hk1]
      have hkm : (getAssoc m k).isSome := by rw [← hsome]; exact hk1.2.2
      rw [if_pos (show k ∈ a :: rest ∧ k ≠ "" ∧ (getAssoc m k).isSome from
        ⟨List.mem_cons_of_mem _ hk1.1, hk1.2.1, hkm⟩), hchar k]
      by_cases hc : k = a ∧ a ≠ "" ∧ (getAssoc m a).isSome
      · rw [if_pos hc]
        rcases Option.isSome_iff_exists.1 hkm with ⟨d, hd⟩
        rw [hd]
        rfl
      · rw [if_neg hc]
    · rw [if_neg hk1, hchar k]
      by_cases hc : k = a ∧ a ≠ "" ∧ (getAssoc m a).isSome
      · rw [if_pos hc]
        rcases hc with ⟨hka, hane, hsa⟩
        rw [if_pos ⟨by rw [hka]; exact List.mem_cons_self a rest,
          by rw [hka]; exact hane, by rw [hka]; exact hsa⟩]
      · rw [if_neg hc]
        have hk2 : ¬(k ∈ a :: rest ∧ k ≠ "" ∧ (getAssoc m k).isSome) := by
          rintro ⟨hmem, hne, hs⟩
          rcases List.mem_cons.1 hmem with hka | hkr
          · exact hc ⟨hka, hka ▸ hne, hka ▸ hs⟩
          · exact hk1 ⟨hkr, hne, by rw [hsome]; exact hs⟩
        rw [if_neg hk2]

/-! ## Window coverage lemmas -/

/-- `MAX(IDX)` is always at least the empty-table sentinel -1. -/
theorem currentIndex_ge (st : WalletDbState) (internal : Bool) :
    -1 ≤ GetCurrentAddressIndex st internal := by
  unfold GetCurrentAddressIndex
  generalize (st.rows.filter (fun r => r.internal = internal)) = l
  have : ∀ (l : List AddrRow) (b : Int),
      b ≤ l.foldl (fun m r => max m (r.idx : Int)) b := by
    intro l
    induction l with
    | nil => intro b; exact le_refl b
    | cons a t ih =>
      intro b
      exact le_trans (le_max_left b (a.idx : Int)) (ih (max b (a.idx : Int)))
  exact this l (-1)

/-- One branch of the derivation loop in `GetAllAddressData`. -/
def branchFold (derive : Bool → Nat → String) (internal : Bool) (n : Nat)
    (m0 : List (String × AddressData)) : List (String × AddressData) :=
  (List.range n).foldl
    (fun m i => setAssoc m (derive internal i)
      { address := derive internal i, index := i, internal := internal,
        used := false }) m0

theorem buildAddresses_eq (derive : Bool → Nat → String)
    (st : WalletDbState) :
    buildAddresses derive st =
      branchFold derive false
        (GetCurrentAddressIndex st false + 1 + ADDRESS_LOOK_AHEAD).toNat
        (branchFold derive true
          (GetCurrentAddressIndex st true + 1 + ADDRESS_LOOK_AHEAD).toNat
          []) := rfl

theorem branchFold_mem (derive : Bool → Nat → String) (br : Bool) (n : Nat)
    (m0 : List (String × AddressData))
    (hnd : ((List.range n).map (derive br)).Nodup) (i : Nat) (hi : i < n) :
    getAssoc (branchFold derive br n m0) (derive br i) =
      some { address := derive br i, index := i, internal := br,
             used := false } := by
  induction n with
  | zero => omega
  | succ n ih =>
    rw [List.range_succ, List.map_append] at hnd
    rcases List.nodup_append.1 hnd with ⟨hl, _, hdisj⟩
    unfold branchFold
    rw [List.range_succ, List.foldl_append]
    simp only [List.foldl_cons, List.foldl_nil]
    rcases Nat.lt_succ_iff_lt_or_eq.1 hi with hlt | heq
    · have hne : derive br n ≠ derive br i := by
        intro hcontra
        exact hdisj (hcontra ▸ List.mem_map_of_mem (derive br)
          (List.mem_range.2 hlt)) (by simp)
      rw [getAssoc_set_other _ _ _ _ hne]
      exact ih hl hlt
    · subst heq
      exact getAssoc_set_same _ _ _

theorem branchFold_frame (derive : Bool → Nat → String) (br : Bool) (n : Nat)
    (m0 : List (String × AddressData)) (k : String)
    (hk : ∀ i < n, derive br i ≠ k) :
    getAssoc (branchFold derive br n m0) k = getAssoc m0 k := by
  induction n with
  | zero => rfl
  | succ n ih =>
    unfold branchFold
    rw [List.range_succ, List.foldl_append]
    simp only [List.foldl_cons, List.foldl_nil]
    rw [getAssoc_set_other _ _ _ _ (hk n (Nat.lt_succ_self n))]
    exact ih (fun i hi => hk i (Nat.lt_succ_of_lt hi))

/-- The keys derived for the two branch windows of `GetAllAddressData`. -/
def windowKeys (derive : Bool → Nat → String) (st : WalletDbState) :
    List String :=
  (List.range
      (GetCurrentAddressIndex st true + 1 + ADDRESS_LOOK_AHEAD).toNat).map
    (derive true) ++
  (List.range
      (GetCurrentAddressIndex st false + 1 + ADDRESS_LOOK_AHEAD).toNat).map
    (derive false)

theorem buildAddresses_mem (derive : Bool → Nat → String)
    (st : WalletDbState) (hnd : (windowKeys derive st).Nodup)
    (internal : Bool) (i : Nat)
    (hi : i < (GetCurrentAddressIndex st internal + 1 +
      ADDRESS_LOOK_AHEAD).toNat) :
    getAssoc (buildAddresses derive st) (derive internal i) =
      some { address := derive internal i, index := i, internal := internal,
             used := false } := by
  rcases List.nodup_append.1 hnd with ⟨hI, hE, hdisj⟩
  rw [buildAddresses_eq]
  cases internal with
  | false => exact branchFold_mem derive false _ _ hE i hi
  | true =>
    rw [branchFold_frame derive false _ _ _ (fun j hj hcontra =>
      hdisj (hcontra ▸ List.mem_map_of_mem (derive true) (List.mem_range.2 hi))
        (hcontra ▸ List.mem_map_of_mem (derive false) (List.mem_range.2 hj)))]
    exact branchFold_mem derive true _ _ hI i hi

/-! ## C3: gap-limit coverage -/

/-- Counterexample to C3 as stated: the ADDRESS table holds only external
index 0, and a stored transaction pays the lookahead address at index 5;
after the cache is built, the address data marks index 5 used, yet only
indices up to 0 + 20 are present -- in particular no address at index
5 + 20 = 25 exists, so coverage does not reach max(usedIndex) + gapLimit. -/
theorem getAllAddressData_gap_counterexample :
    (getAssoc (GetAllAddressData
        (fun b i => (if b then "i" else "e") ++ toString i)
        (GetAllAddressData (fun b i => (if b then "i" else "e") ++ toString i)
          { rows := [{ addr := "e0", idx := 0, internal := false,
                       used := false, utxo := "" }],
            txs := [{ txid := "t", height := 5, status := .CONFIRMED,
                      inputs := [], outputs := [("e5", 10)], memo := "",
                      blocktime := 0, scheduleTime := 0 }],
            cache := none }).2).1 "e5" =
      some { address := "e5", index := 5, internal := false, used := true }) ∧
    ((GetAllAddressData (fun b i => (if b then "i" else "e") ++ toString i)
        (GetAllAddressData (fun b i => (if b then "i" else "e") ++ toString i)
          { rows := [{ addr := "e0", idx := 0, internal := false,
                       used := false, utxo := "" }],
            txs := [{ txid := "t", height := 5, status := .CONFIRMED,
                      inputs := [], outputs := [("e5", 10)], memo := "",
                      blocktime := 0, scheduleTime := 0 }],
            cache := none }).2).1.all (fun p => p.2.index ≤ 20) = true) ∧
    (getAssoc (GetAllAddressData
        (fun b i => (if b then "i" else "e") ++ toString i)
        (GetAllAddressData (fun b i => (if b then "i" else "e") ++ toString i)
          { rows := [{ addr := "e0", idx := 0, internal := false,
                       used := false, utxo := "" }],
            txs := [{ txid := "t", height := 5, status := .CONFIRMED,
                      inputs := [], outputs := [("e5", 10)], memo := "",
                      blocktime := 0, scheduleTime := 0 }],
            cache := none }).2).1 "e25" = none) := by
  refine ⟨?_, ?_, ?_⟩ <;> decide

/-- C3 (amended): for every non-escrow wallet state with no cache yet, the
address data derived by `GetAllAddressData` covers, per branch, every index
from 0 up to `GetCurrentAddressIndex(branch) + ADDRESS_LOOK_AHEAD` -- the
highest REGISTERED index plus the gap limit -- both in the returned map and
in the installed cache. Coverage up to the highest USED index plus the gap
limit is not guaranteed, because a transaction can mark a lookahead address
(whose index exceeds every registered index) as used. -/
theorem getAllAddressData_gap (derive : Bool → Nat → String)
    (st : WalletDbState) (hc : st.cache = none)
    (hnd : (windowKeys derive st).Nodup) (internal : Bool) (i : Nat)
    (hi : (i : Int) ≤ GetCurrentAddressIndex st internal +
      ADDRESS_LOOK_AHEAD) :
    (∃ d, getAssoc (GetAllAddressData derive st).1 (derive internal i) =
        some d ∧ d.index = i ∧ d.internal = internal) ∧
    (∃ m d, (GetAllAddressData derive st).2.cache = some m ∧
      getAssoc m (derive internal i) = some d ∧ d.index = i ∧
      d.internal = internal) := by
  have hge := currentIndex_ge st internal
  have hiw : i < (GetCurrentAddressIndex st internal + 1 +
      ADDRESS_LOOK_AHEAD).toNat := by
    unfold ADDRESS_LOOK_AHEAD at hi ⊢
    omega
  have hmem := buildAddresses_mem derive st hnd internal i hiw
  have hred : GetAllAddressData derive st =
      (buildAddresses derive st,
        st.txs.foldl (fun s tx => tx.outputs.foldl
          (fun s out => UseAddress s out.1) s)
          { st with cache := some (buildAddresses derive st) }) := by
    unfold GetAllAddressData
    rw [hc]
  rw [hred]
  constructor
  · exact ⟨_, hmem, rfl, rfl⟩
  · rw [markLoop_eq_foldl]
    obtain ⟨_, m2, hm2, hchar⟩ := foldUse_cache (addrsOf st.txs)
      { st with cache := some (buildAddresses derive st) }
      (buildAddresses derive st) rfl
    have hex : ∃ d, getAssoc m2 (derive internal i) = some d ∧
        d.index = i ∧ d.internal = internal := by
      rw [hchar (derive internal i)]
      by_cases hcond : derive internal i ∈ addrsOf st.txs ∧
          derive internal i ≠ "" ∧
          (getAssoc (buildAddresses derive st) (derive internal i)).isSome
      · rw [if_pos hcond, hmem]
        exact ⟨_, rfl, rfl, rfl⟩
      · rw [if_neg hcond, hmem]
        exact ⟨_, rfl, rfl, rfl⟩
    rcases hex with ⟨d, h1, h2, h3⟩
    exact ⟨m2, d, hm2, h1, h2, h3⟩

/-- Witness for the amended C3 at a concrete state: external index 20
(= registered max 0 + gap limit 20) is covered. -/
theorem getAllAddressData_gap_witness :
    (∃ d, getAssoc (GetAllAddressData
        (fun b i => (if b then "i" else "e") ++ toString i)
        { rows := [{ addr := "e0", idx := 0, internal := false,
                     used := false, utxo := "" }],
          txs := [], cache := none }).1 "e20" =
        some d ∧ d.index = 20 ∧ d.internal = false) ∧
    (∃ m d, (GetAllAddressData
        (fun b i => (if b then "i" else "e") ++ toString i)
        { rows := [{ addr := "e0", idx := 0, internal := false,
                     used := false, utxo := "" }],
          txs := [], cache := none }).2.cache = some m ∧
      getAssoc m "e20" = some d ∧ d.index = 20 ∧ d.internal = false) :=
  getAllAddressData_gap (fun b i => (if b then "i" else "e") ++ toString i)
    { rows := [{ addr := "e0", idx := 0, internal := false, used := false,
                 utxo := "" }],
      txs := [], cache := none }
    rfl (by decide) false 20 (by decide)

/-! ## C8: permanence of the used flag -/

theorem setAddress_cache (st : WalletDbState) (a : String) (idx : Nat)
    (b : Bool) (u : String) : (SetAddress st a idx b u).cache = st.cache := by
  unfold SetAddress
  by_cases h : st.rows.any (fun r => r.addr = a) <;> simp [h]

/-- Counterexample to C8 as stated: external address "e0" is registered and a
stored transaction pays it, yet the map returned by the cache-building
`GetAllAddressData` call reports `used = false` for "e0" -- the call returns
the local copy captured before the used-flag marking is applied to the
cache. -/
theorem usedFlag_counterexample :
    getAssoc (GetAllAddressData
        (fun b i => (if b then "i" else "e") ++ toString i)
        { rows := [{ addr := "e0", idx := 0, internal := false,
                     used := false, utxo := "" }],
          txs := [{ txid := "t", height := 5, status := .CONFIRMED,
                    inputs := [], outputs := [("e0", 7)], memo := "",
                    blocktime := 0, scheduleTime := 0 }],
          cache := none }).1 "e0" =
      some { address := "e0", index := 0, internal := false,
             used := false } ∧
    ({ rows := [{ addr := "e0", idx := 0, internal := false, used := false,
                  utxo := "" }],
       txs := [{ txid := "t", height := 5, status := .CONFIRMED,
                 inputs := [], outputs := [("e0", 7)], memo := "",
                 blocktime := 0, scheduleTime := 0 }],
       cache := none } : WalletDbState).txs.any
      (fun tx => tx.outputs.any (fun o => o.1 = "e0")) = true := by
  constructor <;> decide

/-- C8 (amended): once the address cache has been built, every cached address
referenced by a stored transaction carries `used = true`, and the flag is
never cleared: `UseAddress`, `SetUtxos`, `AddAddress` and storing a
transaction all preserve a true used flag of a cached entry. The map
returned by the cache-building call itself, however, still shows the flags
as of before the marking. -/
theorem usedFlag_invariant (derive : Bool → Nat → String) :
    (∀ st : WalletDbState, st.cache = none →
      ∃ m, (GetAllAddressData derive st).2.cache = some m ∧
        ∀ k d, getAssoc m k = some d → k ≠ "" → k ∈ addrsOf st.txs →
          d.used = true) ∧
    (∀ (st : WalletDbState) (m : List (String × AddressData)) (k a : String)
       (d : AddressData), st.cache = some m → getAssoc m k = some d →
      d.used = true →
      ∃ m' d', (UseAddress st a).cache = some m' ∧
        getAssoc m' k = some d' ∧ d'.used = true) ∧
    (∀ (st : WalletDbState) (m : List (String × AddressData)) (a u : String),
      st.cache = some m → (SetUtxos derive st a u).2.cache = some m) ∧
    (∀ (st : WalletDbState) (m : List (String × AddressData)) (k a : String)
       (idx : Nat) (b : Bool) (d : AddressData), st.cache = some m →
      getAssoc m k = some d → d.used = true →
      ∃ m' d', (AddAddress derive st a idx b).cache = some m' ∧
        getAssoc m' k = some d' ∧ d'.used = true) ∧
    (∀ (st : WalletDbState) (m : List (String × AddressData)) (k : String)
       (tx : TxView) (d : AddressData), st.cache = some m →
      getAssoc m k = some d → d.used = true →
      ∃ m' d', (StoreTransaction st tx).cache = some m' ∧
        getAssoc m' k = some d' ∧ d'.used = true) := by
  refine ⟨?_, ?_, ?_, ?_, ?_⟩
  · intro st hc
    have hred : (GetAllAddressData derive st).2 =
        st.txs.foldl (fun s tx => tx.outputs.foldl
          (fun s out => UseAddress s out.1) s)
          { st with cache := some (buildAddresses derive st) } := by
      unfold GetAllAddressData
      rw [hc]
    rw [hred, markLoop_eq_foldl]
    obtain ⟨_, m2, hm2, hchar⟩ := foldUse_cache (addrsOf st.txs)
      { st with cache := some (buildAddresses derive st) }
      (buildAddresses derive st) rfl
    refine ⟨m2, hm2, ?_⟩
    intro k d hget hne hmem
    rw [hchar k] at hget
    by_cases hcond : k ∈ addrsOf st.txs ∧ k ≠ "" ∧
        (getAssoc (buildAddresses derive st) k).isSome
    · rw [if_pos hcond] at hget
      rcases Option.isSome_iff_exists.1 hcond.2.2 with ⟨d0, hd0⟩
      rw [hd0] at hget
      have : ({ d0 with used := true } : AddressData) = d :=
        Option.some.inj hget
      rw [← this]
    · rw [if_neg hcond] at hget
      exfalso
      exact hcond ⟨hmem, hne, by rw [hget]; rfl⟩
  · intro st m k a d hm hget hused
    obtain ⟨_, _, m', hm', hchar⟩ := useAddress_cache st m a hm
    have hex : ∃ d', getAssoc m' k = some d' ∧ d'.used = true := by
      rw [hchar k, hget]
      by_cases hc : k = a ∧ a ≠ "" ∧ (getAssoc m a).isSome
      · rw [if_pos hc]
        exact ⟨_, rfl, rfl⟩
      · rw [if_neg hc]
        exact ⟨_, rfl, hused⟩
    rcases hex with ⟨d', h1, h2⟩
    exact ⟨m', d', hm', h1, h2⟩
  · intro st m a u hm
    unfold SetUtxos
    have hp : GetAllAddressData derive st = (m, st) := by
      unfold GetAllAddressData
      rw [hm]
    simp only [hp]
    cases hma : getAssoc m a with
    | none => simpa [hma] using hm
    | some dd =>
      simp only [hma]
      rw [setAddress_cache]
      exact hm
  · intro st m k a idx b d hm hget hused
    unfold AddAddress
    have h1 : (SetAddress st a idx b "").cache = some m := by
      rw [setAddress_cache]
      exact hm
    have hp : GetAllAddressData derive (SetAddress st a idx b "") =
        (m, SetAddress st a idx b "") := by
      unfold GetAllAddressData
      rw [h1]
    simp only [hp, h1]
    by_cases hs : (getAssoc m a).isSome
    · rw [if_pos hs]
      exact ⟨m, d, h1, hget, hused⟩
    · rw [if_neg hs]
      have hka : a ≠ k := by
        intro hcontra
        rw [hcontra, hget] at hs
        exact hs rfl
      refine ⟨setAssoc m a
        { address := a, index := idx, internal := b, used := false },
        d, rfl, ?_, hused⟩
      rw [getAssoc_set_other _ _ _ _ hka]
      exact hget
  · intro st m k tx d hm hget hused
    simp only [StoreTransaction]
    rw [← List.foldl_map (·.1) UseAddress tx.outputs]
    obtain ⟨_, m2, hm2, hchar⟩ := foldUse_cache (tx.outputs.map (·.1))
      { st with txs :=
          if st.txs.any (fun t => t.txid = tx.txid) then
            st.txs.map (fun t => if t.txid = tx.txid then tx else t)
          else st.txs ++ [tx] } m hm
    have hex : ∃ d', getAssoc m2 k = some d' ∧ d'.used = true := by
      rw [hchar k]
      by_cases hc : k ∈ tx.outputs.map (·.1) ∧ k ≠ "" ∧
          (getAssoc m k).isSome
      · rw [if_pos hc, hget]
        exact ⟨_, rfl, rfl⟩
      · rw [if_neg hc, hget]
        exact ⟨_, rfl, hused⟩
    rcases hex with ⟨d', h1, h2⟩
    exact ⟨m2, d', hm2, h1, h2⟩

/-- Witness for the amended C8 at concrete states. -/
theorem usedFlag_invariant_witness :
    (∃ m, (GetAllAddressData
        (fun b i => (if b then "i" else "e") ++ toString i)
        { rows := [{ addr := "e0", idx := 0, internal := false,
                     used := false, utxo := "" }],
          txs := [{ txid := "t", height := 5, status := .CONFIRMED,
                    inputs := [], outputs := [("e0", 7)], memo := "",
                    blocktime := 0, scheduleTime := 0 }],
          cache := none }).2.cache = some m ∧
      ∀ k d, getAssoc m k = some d → k ≠ "" →
        k ∈ addrsOf [{ txid := "t", height := 5, status := .CONFIRMED,
                       inputs := [], outputs := [("e0", 7)], memo := "",
                       blocktime := 0, scheduleTime := 0 }] →
        d.used = true) ∧
    (∃ m' d', (UseAddress
        { rows := [], txs := [],
          cache := some [("e0",
            { address := "e0", index := 0, internal := false,
              used := true })] } "i3").cache = some m' ∧
      getAssoc m' "e0" = some d' ∧ d'.used = true) ∧
    (∃ m' d', (AddAddress
        (fun b i => (if b then "i" else "e") ++ toString i)
        { rows := [], txs := [],
          cache := some [("e0",
            { address := "e0", index := 0, internal := false,
              used := true })] } "x9" 9 false).cache =
          some m' ∧
      getAssoc m' "e0" = some d' ∧ d'.used = true) :=
  ⟨(usedFlag_invariant (fun b i => (if b then "i" else "e") ++ toString i)).1
      { rows := [{ addr := "e0", idx := 0, internal := false, used := false,
                   utxo := "" }],
        txs := [{ txid := "t", height := 5, status := .CONFIRMED,
                  inputs := [], outputs := [("e0", 7)], memo := "",
                  blocktime := 0, scheduleTime := 0 }],
        cache := none } rfl,
   (usedFlag_invariant (fun b i => (if b then "i" else "e") ++ toString i)
      ).2.1
      { rows := [], txs := [],
        cache := some [("e0",
          { address := "e0", index := 0, internal := false,
            used := true })] }
      [("e0",
        { address := "e0", index := 0, internal := false, used := true })]
      "e0" "i3"
      { address := "e0", index := 0, internal := false, used := true }
      rfl (by decide) rfl,
   (usedFlag_invariant (fun b i => (if b then "i" else "e") ++ toString i)
      ).2.2.2.1
      { rows := [], txs := [],
        cache := some [("e0",
          { address := "e0", index := 0, internal := false,
            used := true })] }
      [("e0",
        { address := "e0", index := 0, internal := false, used := true })]
      "e0" "x9" 9 false
      { address := "e0", index := 0, internal := false, used := true }
      rfl (by decide) rfl⟩

/-! ## C9: reconciliation eviction -/

/-- C9: divergence of the batch eviction sweep from the claim (and from the
sequential path). The store holds the pending receive transaction "t" and
the authoritative history CONTAINS "t", but its raw-transaction fetch fails:
the batch path (synchronizer.cpp 155-163) keys eviction on the
`get_multi_rawtx` response rather than on the history, so it deletes "t" and
emits a REPLACED notification even though "t" appears in the history, merely
reporting `isSynced = false`; the sequential path on the same input aborts
with the fetch exception, leaving the store unchanged and evicting
nothing. -/
theorem updateTransactions_eviction_bug :
    UpdateTransactionsBatch (fun r => r) (fun _ => []) (fun _ => true)
      (fun _ => true) (fun _ => 0) true
      [{ id := "t", value := "vt", height := 0, fee := 0, memo := "",
         changePos := 0, blocktime := 0, extra := {} }]
      [{ tx_hash := "t", height := 0, fee := none }]
      (fun _ => none) (fun _ => none) =
      ([], [("t", .REPLACED)], false) ∧
    "t" ∈ ([{ tx_hash := "t", height := 0, fee := none }] :
      List HistoryItem).map HistoryItem.tx_hash ∧
    UpdateTransactionsSeq (fun r => r) (fun _ => []) (fun _ => true)
      (fun _ => true) (fun _ => 0) true
      [{ id := "t", value := "vt", height := 0, fee := 0, memo := "",
         changePos := 0, blocktime := 0, extra := {} }]
      [{ tx_hash := "t", height := 0, fee := none }]
      (fun _ => none) =
      (.error (),
       [{ id := "t", value := "vt", height := 0, fee := 0, memo := "",
          changePos := 0, blocktime := 0, extra := {} }], []) :=
  ⟨rfl, List.mem_singleton.2 rfl, rfl⟩

/-! ## C1: conflict exclusion in coin derivation -/

theorem pass2Step_skip (ctx : OwnCtx) (tm : String → Option TxView)
    (ub : String → Option String) (m : CoinMap) (tx : TxView)
    (h : tx.status = .REPLACED ∨ tx.status = .NETWORK_REJECTED) :
    pass2Step ctx tm ub m tx = m := by
  unfold pass2Step
  rw [if_pos h]

theorem pass2Step_shadowed (ctx : OwnCtx) (tm : String → Option TxView)
    (ub : String → Option String) (m : CoinMap) (tx : TxView)
    (h : isShadowed ub tx = true) :
    pass2Step ctx tm ub m tx = m := by
  unfold pass2Step
  by_cases hs : tx.status = .REPLACED ∨ tx.status = .NETWORK_REJECTED
  · rw [if_pos hs]
  · rw [if_neg hs, if_pos h]

theorem foldl_filter_id {α β : Type} (f : β → α → β) (p : α → Bool)
    (l : List α) (h : ∀ (b : β), ∀ x ∈ l, p x = false → f b x = b) :
    ∀ b : β, l.foldl f b = (l.filter p).foldl f b := by
  induction l with
  | nil => intro b; rfl
  | cons a t ih =>
    intro b
    by_cases ha : p a = true
    · rw [List.foldl_cons, List.filter_cons_of_pos ha, List.foldl_cons]
      exact ih (fun b x hx hp => h b x (List.mem_cons_of_mem _ hx) hp) _
    · rw [List.foldl_cons, h b a (List.mem_cons_self a t) (by simpa using ha),
        List.filter_cons_of_neg (by simpa using ha)]
      exact ih (fun b x hx hp => h b x (List.mem_cons_of_mem _ hx) hp) b

/-- C1: in a transaction set containing two unconfirmed transactions spending
the same coin, only transactions not shadowed by another transaction's claim
in the `used_by` map contribute to the derived coin map: a shadowed
transaction's pass-2 step is the identity (none of its spends or outputs are
applied), the whole derivation equals the pass-2 fold over only the
non-skipped non-shadowed transactions, and a shadowed transaction remains
stored in the transaction index. -/
theorem conflict_exclusion (ctx : OwnCtx) (txs : List TxView)
    (t1 t2 : TxView) (h1 : t1 ∈ txs) (h2 : t2 ∈ txs) (hne : t1 ≠ t2)
    (hu1 : t1.height ≤ 0) (hu2 : t2.height ≤ 0)
    (c : String × Nat) (hc1 : c ∈ t1.inputs) (hc2 : c ∈ t2.inputs) :
    (∀ (m : CoinMap), ∀ t ∈ txs, isShadowed (buildUsedBy txs) t = true →
      pass2Step ctx (findTx txs) (buildUsedBy txs) m t = m) ∧
    GetCoinsFromTransactions ctx txs =
      (txs.filter (fun t =>
        !(t.status == .REPLACED || t.status == .NETWORK_REJECTED) &&
        !isShadowed (buildUsedBy txs) t)).foldl
        (pass2Step ctx (findTx txs) (buildUsedBy txs)) [] ∧
    (∀ t ∈ txs, isShadowed (buildUsedBy txs) t = true →
      (findTx txs t.txid).isSome = true) := by
  refine ⟨?_, ?_, ?_⟩
  · intro m t _ hsh
    exact pass2Step_shadowed ctx _ _ m t hsh
  · unfold GetCoinsFromTransactions
    apply foldl_filter_id
    intro m t ht hp
    simp only [Bool.and_eq_false_iff, Bool.not_eq_false'] at hp
    rcases hp with hp | hp
    · apply pass2Step_skip
      simp only [Bool.or_eq_true, beq_iff_eq] at hp
      exact hp
    · exact pass2Step_shadowed ctx _ _ m t hp
  · intro t ht _
    exact List.find?_isSome.mpr ⟨t, ht, by simp⟩

/-- Witness for C1: a confirmed spend of coin "c:0" shadows both unconfirmed
spenders of the same coin. -/
theorem conflict_exclusion_witness :
    (∀ (m : CoinMap), ∀ t ∈ ([
        { txid := "k", height := 2, status := .CONFIRMED,
          inputs := [("c", 0)], outputs := [], memo := "", blocktime := 0,
          scheduleTime := 0 },
        { txid := "p", height := 0, status := .PENDING_CONFIRMATION,
          inputs := [("c", 0)], outputs := [("x", 1)], memo := "",
          blocktime := 0, scheduleTime := 0 },
        { txid := "q", height := 0, status := .PENDING_CONFIRMATION,
          inputs := [("c", 0)], outputs := [("y", 2)], memo := "",
          blocktime := 0, scheduleTime := 0 }] : List TxView),
      isShadowed (buildUsedBy [
        { txid := "k", height := 2, status := .CONFIRMED,
          inputs := [("c", 0)], outputs := [], memo := "", blocktime := 0,
          scheduleTime := 0 },
        { txid := "p", height := 0, status := .PENDING_CONFIRMATION,
          inputs := [("c", 0)], outputs := [("x", 1)], memo := "",
          blocktime := 0, scheduleTime := 0 },
        { txid := "q", height := 0, status := .PENDING_CONFIRMATION,
          inputs := [("c", 0)], outputs := [("y", 2)], memo := "",
          blocktime := 0, scheduleTime := 0 }]) t = true →
      pass2Step { isMyAddress := fun _ => true, isMyChange := fun _ => false }
        (findTx [
        { txid := "k", height := 2, status := .CONFIRMED,
          inputs := [("c", 0)], outputs := [], memo := "", blocktime := 0,
          scheduleTime := 0 },
        { txid := "p", height := 0, status := .PENDING_CONFIRMATION,
          inputs := [("c", 0)], outputs := [("x", 1)], memo := "",
          blocktime := 0, scheduleTime := 0 },
        { txid := "q", height := 0, status := .PENDING_CONFIRMATION,
          inputs := [("c", 0)], outputs := [("y", 2)], memo := "",
          blocktime := 0, scheduleTime := 0 }])
        (buildUsedBy [
        { txid := "k", height := 2, status := .CONFIRMED,
          inputs := [("c", 0)], outputs := [], memo := "", blocktime := 0,
          scheduleTime := 0 },
        { txid := "p", height := 0, status := .PENDING_CONFIRMATION,
          inputs := [("c", 0)], outputs := [("x", 1)], memo := "",
          blocktime := 0, scheduleTime := 0 },
        { txid := "q", height := 0, status := .PENDING_CONFIRMATION,
          inputs := [("c", 0)], outputs := [("y", 2)], memo := "",
          blocktime := 0, scheduleTime := 0 }]) m t = m) ∧
    GetCoinsFromTransactions
      { isMyAddress := fun _ => true, isMyChange := fun _ => false } [
        { txid := "k", height := 2, status := .CONFIRMED,
          inputs := [("c", 0)], outputs := [], memo := "", blocktime := 0,
          scheduleTime := 0 },
        { txid := "p", height := 0, status := .PENDING_CONFIRMATION,
          inputs := [("c", 0)], outputs := [("x", 1)], memo := "",
          blocktime := 0, scheduleTime := 0 },
        { txid := "q", height := 0, status := .PENDING_CONFIRMATION,
          inputs := [("c", 0)], outputs := [("y", 2)], memo := "",
          blocktime := 0, scheduleTime := 0 }] =
      (([
        { txid := "k", height := 2, status := .CONFIRMED,
          inputs := [("c", 0)], outputs := [], memo := "", blocktime := 0,
          scheduleTime := 0 },
        { txid := "p", height := 0, status := .PENDING_CONFIRMATION,
          inputs := [("c", 0)], outputs := [("x", 1)], memo := "",
          blocktime := 0, scheduleTime := 0 },
        { txid := "q", height := 0, status := .PENDING_CONFIRMATION,
          inputs := [("c", 0)], outputs := [("y", 2)], memo := "",
          blocktime := 0, scheduleTime := 0 }] : List TxView).filter
        (fun t => !(t.status == .REPLACED || t.status == .NETWORK_REJECTED) &&
          !isShadowed (buildUsedBy [
        { txid := "k", height := 2, status := .CONFIRMED,
          inputs := [("c", 0)], outputs := [], memo := "", blocktime := 0,
          scheduleTime := 0 },
        { txid := "p", height := 0, status := .PENDING_CONFIRMATION,
          inputs := [("c", 0)], outputs := [("x", 1)], memo := "",
          blocktime := 0, scheduleTime := 0 },
        { txid := "q", height := 0, status := .PENDING_CONFIRMATION,
          inputs := [("c", 0)], outputs := [("y", 2)], memo := "",
          blocktime := 0, scheduleTime := 0 }]) t)).foldl
        (pass2Step
          { isMyAddress := fun _ => true, isMyChange := fun _ => false }
          (findTx [
        { txid := "k", height := 2, status := .CONFIRMED,
          inputs := [("c", 0)], outputs := [], memo := "", blocktime := 0,
          scheduleTime := 0 },
        { txid := "p", height := 0, status := .PENDING_CONFIRMATION,
          inputs := [("c", 0)], outputs := [("x", 1)], memo := "",
          blocktime := 0, scheduleTime := 0 },
        { txid := "q", height := 0, status := .PENDING_CONFIRMATION,
          inputs := [("c", 0)], outputs := [("y", 2)], memo := "",
          blocktime := 0, scheduleTime := 0 }])
          (buildUsedBy [
        { txid := "k", height := 2, status := .CONFIRMED,
          inputs := [("c", 0)], outputs := [], memo := "", blocktime := 0,
          scheduleTime := 0 },
        { txid := "p", height := 0, status := .PENDING_CONFIRMATION,
          inputs := [("c", 0)], outputs := [("x", 1)], memo := "",
          blocktime := 0, scheduleTime := 0 },
        { txid := "q", height := 0, status := .PENDING_CONFIRMATION,
          inputs := [("c", 0)], outputs := [("y", 2)], memo := "",
          blocktime := 0, scheduleTime := 0 }])) [] ∧
    (∀ t ∈ ([
        { txid := "k", height := 2, status := .CONFIRMED,
          inputs := [("c", 0)], outputs := [], memo := "", blocktime := 0,
          scheduleTime := 0 },
        { txid := "p", height := 0, status := .PENDING_CONFIRMATION,
          inputs := [("c", 0)], outputs := [("x", 1)], memo := "",
          blocktime := 0, scheduleTime := 0 },
        { txid := "q", height := 0, status := .PENDING_CONFIRMATION,
          inputs := [("c", 0)], outputs := [("y", 2)], memo := "",
          blocktime := 0, scheduleTime := 0 }] : List TxView),
      isShadowed (buildUsedBy [
        { txid := "k", height := 2, status := .CONFIRMED,
          inputs := [("c", 0)], outputs := [], memo := "", blocktime := 0,
          scheduleTime := 0 },
        { txid := "p", height := 0, status := .PENDING_CONFIRMATION,
          inputs := [("c", 0)], outputs := [("x", 1)], memo := "",
          blocktime := 0, scheduleTime := 0 },
        { txid := "q", height := 0, status := .PENDING_CONFIRMATION,
          inputs := [("c", 0)], outputs := [("y", 2)], memo := "",
          blocktime := 0, scheduleTime := 0 }]) t = true →
      (findTx [
        { txid := "k", height := 2, status := .CONFIRMED,
          inputs := [("c", 0)], outputs := [], memo := "", blocktime := 0,
          scheduleTime := 0 },
        { txid := "p", height := 0, status := .PENDING_CONFIRMATION,
          inputs := [("c", 0)], outputs := [("x", 1)], memo := "",
          blocktime := 0, scheduleTime := 0 },
        { txid := "q", height := 0, status := .PENDING_CONFIRMATION,
          inputs := [("c", 0)], outputs := [("y", 2)], memo := "",
          blocktime := 0, scheduleTime := 0 }] t.txid).isSome = true) :=
  conflict_exclusion
    { isMyAddress := fun _ => true, isMyChange := fun _ => false }
    [{ txid := "k", height := 2, status := .CONFIRMED,
       inputs := [("c", 0)], outputs := [], memo := "", blocktime := 0,
       scheduleTime := 0 },
     { txid := "p", height := 0, status := .PENDING_CONFIRMATION,
       inputs := [("c", 0)], outputs := [("x", 1)], memo := "",
       blocktime := 0, scheduleTime := 0 },
     { txid := "q", height := 0, status := .PENDING_CONFIRMATION,
       inputs := [("c", 0)], outputs := [("y", 2)], memo := "",
       blocktime := 0, scheduleTime := 0 }]
    { txid := "p", height := 0, status := .PENDING_CONFIRMATION,
      inputs := [("c", 0)], outputs := [("x", 1)], memo := "",
      blocktime := 0, scheduleTime := 0 }
    { txid := "q", height := 0, status := .PENDING_CONFIRMATION,
      inputs := [("c", 0)], outputs := [("y", 2)], memo := "",
      blocktime := 0, scheduleTime := 0 }
    (by decide) (by decide) (by decide) (by decide) (by decide)
    ("c", 0) (by decide) (by decide)

/-! ## Per-coin status characterization of coin derivation -/

theorem lookupCoin_cons (k1 : String) (v : UnspentOutput) (m : CoinMap)
    (k : String) :
    lookupCoin ((k1, v) :: m) k = if k1 = k then some v else lookupCoin m k :=
  getAssoc_cons k1 v m k

theorem lookupCoin_updateCoin_same (m : CoinMap) (id : String)
    (f : UnspentOutput → UnspentOutput) :
    lookupCoin (updateCoin m id f) id =
      some (f ((lookupCoin m id).getD {})) := by
  induction m with
  | nil =>
    show lookupCoin [(id, f {})] id = _
    rw [lookupCoin_cons, if_pos rfl]
    rfl
  | cons p rest ih =>
    rcases p with ⟨k, c⟩
    unfold updateCoin
    by_cases h : k = id
    · rw [if_pos h, lookupCoin_cons, if_pos h, lookupCoin_cons, if_pos h]
      rfl
    · rw [if_neg h, lookupCoin_cons, if_neg h, lookupCoin_cons, if_neg h, ih]

theorem lookupCoin_updateCoin_other (m : CoinMap) (key id : String)
    (f : UnspentOutput → UnspentOutput) (h : key ≠ id) :
    lookupCoin (updateCoin m key f) id = lookupCoin m id := by
  induction m with
  | nil =>
    show lookupCoin [(key, f {})] id = _
    rw [lookupCoin_cons, if_neg h]
  | cons p rest ih =>
    rcases p with ⟨k, c⟩
    unfold updateCoin
    by_cases hk : k = key
    · rw [if_pos hk, lookupCoin_cons, lookupCoin_cons, hk, if_neg h, if_neg h]
    · rw [if_neg hk, lookupCoin_cons, lookupCoin_cons]
      by_cases hk' : k = id
      · rw [if_pos hk', if_pos hk']
      · rw [if_neg hk', if_neg hk', ih]

/-- The status contribution a transaction's input makes to coin `id` (the
embedding of one iteration of the pass-2 input loop, restricted to the
status dimension). -/
def spendContrib (ctx : OwnCtx) (tm : String → Option TxView) (tx : TxView)
    (id : String) (inp : String × Nat) : Option CoinStatus :=
  if CoinId inp.1 inp.2 = id then
    match tm inp.1 with
    | none => none
    | some prev =>
      match prev.outputs[inp.2]? with
      | none => none
      | some out =>
        if ctx.isMyAddress out.1 then spendStatus tx.status else none
  else none

/-- The status contribution a transaction's output makes to coin `id`. -/
def outContrib (ctx : OwnCtx) (tx : TxView) (id : String) (vout : Nat)
    (out : String × Int) : Option CoinStatus :=
  if CoinId tx.txid vout = id ∧ ctx.isMyAddress out.1 then
    some (if tx.height > 0 then .CONFIRMED
          else .INCOMING_PENDING_CONFIRMATION)
  else none

/-- All status contributions one transaction makes to coin `id` in pass 2
(empty for skipped or shadowed transactions). -/
def txContribs (ctx : OwnCtx) (tm : String → Option TxView)
    (ub : String → Option String) (tx : TxView) (id : String) :
    List CoinStatus :=
  if tx.status = .REPLACED ∨ tx.status = .NETWORK_REJECTED then []
  else if isShadowed ub tx then []
  else (tx.inputs.filterMap (spendContrib ctx tm tx id)) ++
    (tx.outputs.enum.filterMap (fun p => outContrib ctx tx id p.1 p.2))

/-- Derived status of coin `id` in a coin map. -/
def statusOf (m : CoinMap) (id : String) : Option CoinStatus :=
  (lookupCoin m id).map (·.status)

/-- Aggregation of status contributions: each contribution upgrades the
running status (creating the coin at the bottom status first). -/
def aggStatus (s : Option CoinStatus) (l : List CoinStatus) :
    Option CoinStatus :=
  l.foldl (fun acc c => some (csMax (acc.getD CoinStatus.bot) c)) s

theorem aggStatus_append (s : Option CoinStatus) (l1 l2 : List CoinStatus) :
    aggStatus s (l1 ++ l2) = aggStatus (aggStatus s l1) l2 := by
  unfold aggStatus
  rw [List.foldl_append]

theorem statusOf_getD (m : CoinMap) (id : String) :
    ((lookupCoin m id).getD {}).status =
      (statusOf m id).getD CoinStatus.bot := by
  unfold statusOf
  cases lookupCoin m id <;> rfl

theorem statusOf_update_max (m : CoinMap) (key : String)
    (f : UnspentOutput → UnspentOutput) (s : CoinStatus)
    (hf : ∀ c, (f c).status = csMax c.status s) :
    statusOf (updateCoin m key f) key =
      some (csMax ((statusOf m key).getD CoinStatus.bot) s) := by
  unfold statusOf
  rw [lookupCoin_updateCoin_same, Option.map_some', hf]
  cases lookupCoin m key <;> rfl

theorem statusOf_applyInput (ctx : OwnCtx) (tm : String → Option TxView)
    (tx : TxView) (m : CoinMap) (inp : String × Nat) (id : String)
    (hss : (spendStatus tx.status).isSome) :
    statusOf (applyInput ctx tm tx m inp) id =
      match spendContrib ctx tm tx id inp with
      | some s => some (csMax ((statusOf m id).getD CoinStatus.bot) s)
      | none => statusOf m id := by
  rcases Option.isSome_iff_exists.1 hss with ⟨s, hs⟩
  cases htm : tm inp.1 with
  | none =>
    have hC : spendContrib ctx tm tx id inp = none := by
      by_cases hid : CoinId inp.1 inp.2 = id <;>
        simp [spendContrib, htm, hid]
    rw [hC]
    show statusOf (applyInput ctx tm tx m inp) id = statusOf m id
    unfold applyInput
    rw [htm]
  | some prev =>
    cases hout : prev.outputs[inp.2]? with
    | none =>
      have hC : spendContrib ctx tm tx id inp = none := by
        by_cases hid : CoinId inp.1 inp.2 = id <;>
          simp [spendContrib, htm, hout, hid]
      rw [hC]
      show statusOf (applyInput ctx tm tx m inp) id = statusOf m id
      unfold applyInput
      simp only [htm, hout]
    | some out =>
      by_cases hmine : ctx.isMyAddress out.1
      · by_cases hid : CoinId inp.1 inp.2 = id
        · have hC : spendContrib ctx tm tx id inp = some s := by
            simp [spendContrib, htm, hout, hid, hmine, hs]
          rw [hC]
          show statusOf (applyInput ctx tm tx m inp) id =
            some (csMax ((statusOf m id).getD CoinStatus.bot) s)
          subst hid
          unfold applyInput
          simp only [htm, hout]
          rw [if_pos hmine]
          apply statusOf_update_max
          intro c
          simp only [hs]
          unfold setStatusUpdate csMax
          by_cases hlt : c.status.toNat < s.toNat <;> simp [hlt]
        · have hC : spendContrib ctx tm tx id inp = none := by
            simp [spendContrib, htm, hout, hid]
          rw [hC]
          show statusOf (applyInput ctx tm tx m inp) id = statusOf m id
          unfold applyInput
          simp only [htm, hout]
          rw [if_pos hmine]
          unfold statusOf
          rw [lookupCoin_updateCoin_other _ _ _ _ hid]
      · have hC : spendContrib ctx tm tx id inp = none := by
          by_cases hid : CoinId inp.1 inp.2 = id <;>
            simp [spendContrib, htm, hout, hid, hmine]
        rw [hC]
        show statusOf (applyInput ctx tm tx m inp) id = statusOf m id
        unfold applyInput
        simp only [htm, hout]
        rw [if_neg hmine]

theorem statusOf_applyOutput (ctx : OwnCtx) (tx : TxView) (m : CoinMap)
    (vout : Nat) (out : String × Int) (id : String) :
    statusOf (applyOutput ctx tx m vout out) id =
      match outContrib ctx tx id vout out with
      | some s => some (csMax ((statusOf m id).getD CoinStatus.bot) s)
      | none => statusOf m id := by
  by_cases hmine : ctx.isMyAddress out.1
  · by_cases hid : CoinId tx.txid vout = id
    · have hC : outContrib ctx tx id vout out =
          some (if tx.height > 0 then CoinStatus.CONFIRMED
                else CoinStatus.INCOMING_PENDING_CONFIRMATION) := by
        simp [outContrib, hid, hmine]
      rw [hC]
      show statusOf (applyOutput ctx tx m vout out) id =
        some (csMax ((statusOf m id).getD CoinStatus.bot)
          (if tx.height > 0 then CoinStatus.CONFIRMED
           else CoinStatus.INCOMING_PENDING_CONFIRMATION))
      subst hid
      unfold applyOutput
      rw [if_pos hmine]
      apply statusOf_update_max
      intro c
      unfold setStatusUpdate csMax
      by_cases hlt : c.status.toNat <
          (if tx.height > 0 then CoinStatus.CONFIRMED
           else CoinStatus.INCOMING_PENDING_CONFIRMATION).toNat <;>
        simp [hlt]
    · have hC : outContrib ctx tx id vout out = none := by
        simp [outContrib, hid]
      rw [hC]
      show statusOf (applyOutput ctx tx m vout out) id = statusOf m id
      unfold applyOutput
      rw [if_pos hmine]
      unfold statusOf
      rw [lookupCoin_updateCoin_other _ _ _ _ hid]
  · have hC : outContrib ctx tx id vout out = none := by
      simp [outContrib, hmine]
    rw [hC]
    show statusOf (applyOutput ctx tx m vout out) id = statusOf m id
    unfold applyOutput
    rw [if_neg hmine]

theorem statusOf_inputsFold (ctx : OwnCtx) (tm : String → Option TxView)
    (tx : TxView) (id : String)
    (hss : (spendStatus tx.status).isSome) :
    ∀ (l : List (String × Nat)) (m : CoinMap),
      statusOf (l.foldl (applyInput ctx tm tx) m) id =
        aggStatus (statusOf m id) (l.filterMap (spendContrib ctx tm tx id)) := by
  intro l
  induction l with
  | nil => intro m; rfl
  | cons inp rest ih =>
    intro m
    rw [List.foldl_cons, ih (applyInput ctx tm tx m inp),
      statusOf_applyInput ctx tm tx m inp id hss]
    cases hC : spendContrib ctx tm tx id inp with
    | some s => rw [List.filterMap_cons_some hC]; rfl
    | none => rw [List.filterMap_cons_none hC]

theorem statusOf_outputsFold (ctx : OwnCtx) (tx : TxView) (id : String) :
    ∀ (l : List (Nat × (String × Int))) (m : CoinMap),
      statusOf (l.foldl (fun m p => applyOutput ctx tx m p.1 p.2) m) id =
        aggStatus (statusOf m id)
          (l.filterMap (fun p => outContrib ctx tx id p.1 p.2)) := by
  intro l
  induction l with
  | nil => intro m; rfl
  | cons p rest ih =>
    intro m
    rw [List.foldl_cons, ih (applyOutput ctx tx m p.1 p.2),
      statusOf_applyOutput ctx tx m p.1 p.2 id]
    cases hC : outContrib ctx tx id p.1 p.2 with
    | some s =>
      have hstep : List.filterMap (fun q => outContrib ctx tx id q.1 q.2)
          (p :: rest) =
          s :: List.filterMap (fun q => outContrib ctx tx id q.1 q.2) rest := by
        simp [List.filterMap_cons, hC]
      rw [hstep]
      rfl
    | none =>
      have hstep : List.filterMap (fun q => outContrib ctx tx id q.1 q.2)
          (p :: rest) =
          List.filterMap (fun q => outContrib ctx tx id q.1 q.2) rest := by
        simp [List.filterMap_cons, hC]
      rw [hstep]

theorem statusOf_pass2Step (ctx : OwnCtx) (tm : String → Option TxView)
    (ub : String → Option String) (m : CoinMap) (tx : TxView) (id : String) :
    statusOf (pass2Step ctx tm ub m tx) id =
      aggStatus (statusOf m id) (txContribs ctx tm ub tx id) := by
  unfold pass2Step txContribs
  by_cases hsk : tx.status = .REPLACED ∨ tx.status = .NETWORK_REJECTED
  · rw [if_pos hsk, if_pos hsk]
    rfl
  · rw [if_neg hsk, if_neg hsk]
    by_cases hsh : isShadowed ub tx = true
    · rw [if_pos hsh, if_pos hsh]
      rfl
    · rw [if_neg hsh, if_neg hsh]
      have hss : (spendStatus tx.status).isSome := by
        cases h : tx.status with
        | REPLACED => exact absurd (Or.inl h) hsk
        | NETWORK_REJECTED => exact absurd (Or.inr h) hsk
        | PENDING_SIGNATURES => simp [spendStatus]
        | READY_TO_BROADCAST => simp [spendStatus]
        | PENDING_CONFIRMATION => simp [spendStatus]
        | CONFIRMED => simp [spendStatus]
      rw [aggStatus_append, ← statusOf_inputsFold ctx tm tx id hss tx.inputs m,
        statusOf_outputsFold ctx tx id tx.outputs.enum]

theorem statusOf_fold (ctx : OwnCtx) (tm : String → Option TxView)
    (ub : String → Option String) (id : String) :
    ∀ (txs : List TxView) (m : CoinMap),
      statusOf (txs.foldl (pass2Step ctx tm ub) m) id =
        aggStatus (statusOf m id)
          (txs.flatMap (fun t => txContribs ctx tm ub t id)) := by
  intro txs
  induction txs with
  | nil => intro m; rfl
  | cons t rest ih =>
    intro m
    rw [List.foldl_cons, ih (pass2Step ctx tm ub m t), List.flatMap_cons,
      aggStatus_append, statusOf_pass2Step ctx tm ub m t id]

/-- The per-coin status of the derived coin map, expressed as the aggregation
of all pass-2 contributions. -/
theorem statusOf_getCoins (ctx : OwnCtx) (txs : List TxView) (id : String) :
    statusOf (GetCoinsFromTransactions ctx txs) id =
      aggStatus none (txs.flatMap (fun t =>
        txContribs ctx (findTx txs) (buildUsedBy txs) t id)) :=
  statusOf_fold ctx (findTx txs) (buildUsedBy txs) id txs []

/-! ## Order independence of the coin-status fold (C2) -/

theorem csMax_right_comm (a b c : CoinStatus) :
    csMax (csMax a b) c = csMax (csMax a c) b := by
  cases a <;> cases b <;> cases c <;> rfl

theorem aggStatus_perm {l l' : List CoinStatus} (h : l.Perm l') :
    ∀ s, aggStatus s l = aggStatus s l' := by
  induction h with
  | nil => intro s; rfl
  | cons x _ ih =>
    intro s
    exact ih (some (csMax (s.getD CoinStatus.bot) x))
  | swap x y l =>
    intro s
    show aggStatus (some (csMax (csMax (s.getD CoinStatus.bot) y) x)) l =
      aggStatus (some (csMax (csMax (s.getD CoinStatus.bot) x) y)) l
    rw [csMax_right_comm]
  | trans _ _ ih1 ih2 =>
    intro s
    rw [ih1 s, ih2 s]

theorem flatMap_perm {α β : Type} (g : α → List β) {l l' : List α}
    (h : l.Perm l') : (l.flatMap g).Perm (l'.flatMap g) := by
  induction h with
  | nil => exact List.Perm.refl _
  | cons x _ ih =>
    rw [List.flatMap_cons, List.flatMap_cons]
    exact ih.append_left (g x)
  | swap x y l =>
    rw [List.flatMap_cons, List.flatMap_cons, List.flatMap_cons,
      List.flatMap_cons, ← List.append_assoc, ← List.append_assoc]
    exact (List.perm_append_comm).append_right _
  | trans _ _ ih1 ih2 => exact ih1.trans ih2

theorem findTx_eq_some_iff (txs : List TxView)
    (hnd : (txs.map TxView.txid).Nodup) (id : String) (t : TxView) :
    findTx txs id = some t ↔ t ∈ txs ∧ t.txid = id := by
  constructor
  · intro h
    exact ⟨List.mem_of_find?_eq_some h, by simpa using List.find?_some h⟩
  · rintro ⟨hm, hid⟩
    apply find_unique txs _ t hm (by simpa using hid)
    intro x hx hpx
    exact List.inj_on_of_nodup_map hnd hx hm
      (by rw [hid]; simpa using hpx)

theorem findTx_perm (txs txs' : List TxView) (h : txs.Perm txs')
    (hnd : (txs.map TxView.txid).Nodup) (id : String) :
    findTx txs id = findTx txs' id := by
  have hnd' : (txs'.map TxView.txid).Nodup := ((h.map TxView.txid).nodup_iff).1 hnd
  cases hf : findTx txs' id with
  | some t =>
    have ht := (findTx_eq_some_iff txs' hnd' id t).1 hf
    exact (findTx_eq_some_iff txs hnd id t).2 ⟨h.mem_iff.2 ht.1, ht.2⟩
  | none =>
    rw [findTx, List.find?_eq_none] at hf
    rw [findTx, List.find?_eq_none]
    intro x hx
    exact hf x (h.mem_iff.1 hx)

theorem usedBy_inner (inputs : List (String × Nat)) (w : String)
    (f : String → Option String) (c : String) :
    (inputs.foldl
      (fun m inp => fun x =>
        if x = CoinId inp.1 inp.2 then some w else m x) f) c =
      if inputs.any (fun i => c = CoinId i.1 i.2) then some w else f c := by
  induction inputs generalizing f with
  | nil => simp
  | cons i rest ih =>
    rw [List.foldl_cons, ih]
    by_cases hr : rest.any (fun j => c = CoinId j.1 j.2) = true <;>
      by_cases hi : c = CoinId i.1 i.2 <;>
      simp [List.any_cons, hr, hi]

theorem usedByStep_char (f : String → Option String) (tx : TxView)
    (c : String) :
    usedByStep f tx c =
      if tx.height ≤ 0 then f c
      else if tx.inputs.any (fun i => c = CoinId i.1 i.2) then some tx.txid
      else f c := by
  unfold usedByStep
  by_cases hh : tx.height ≤ 0
  · rw [if_pos hh, if_pos hh]
  · rw [if_neg hh, if_neg hh, usedBy_inner]

/-- A confirmed spender of coin `c`. -/
def writesCoin (tx : TxView) (c : String) : Prop :=
  tx.height > 0 ∧ tx.inputs.any (fun i => c = CoinId i.1 i.2) = true

theorem usedBy_fold_frame (txs : List TxView) (c : String) :
    ∀ (f : String → Option String),
      (∀ t ∈ txs, ¬ writesCoin t c) → (txs.foldl usedByStep f) c = f c := by
  induction txs with
  | nil => intro f _; rfl
  | cons a rest ih =>
    intro f hno
    rw [List.foldl_cons,
      ih (usedByStep f a) (fun t ht => hno t (List.mem_cons_of_mem _ ht)),
      usedByStep_char]
    by_cases hh : a.height ≤ 0
    · rw [if_pos hh]
    · rw [if_neg hh, if_neg (fun hany =>
        hno a (List.mem_cons_self a rest) ⟨by omega, hany⟩)]

theorem usedBy_fold_writer (txs : List TxView) (c : String) (t : TxView) :
    ∀ (f : String → Option String),
      t ∈ txs → writesCoin t c →
      (∀ t' ∈ txs, t' ≠ t → ¬ writesCoin t' c) → txs.Nodup →
      (txs.foldl usedByStep f) c = some t.txid := by
  induction txs with
  | nil => intro _ h; cases h
  | cons a rest ih =>
    intro f hmem hw huniq hnd
    rw [List.foldl_cons]
    rcases List.mem_cons.1 hmem with heq | hrest
    · subst heq
      rw [usedBy_fold_frame rest c (usedByStep f t)
        (fun t' ht' => huniq t' (List.mem_cons_of_mem _ ht')
          (fun he => (List.nodup_cons.1 hnd).1 (he ▸ ht'))),
        usedByStep_char, if_neg (not_le.2 hw.1), if_pos hw.2]
    · exact ih (usedByStep f a) hrest hw
        (fun t' ht' => huniq t' (List.mem_cons_of_mem _ ht'))
        (List.nodup_cons.1 hnd).2

theorem buildUsedBy_perm (txs txs' : List TxView) (h : txs.Perm txs')
    (hnd : (txs.map TxView.txid).Nodup)
    (hdis : ∀ a ∈ txs, ∀ b ∈ txs, a ≠ b → ∀ i ∈ a.inputs, ∀ j ∈ b.inputs,
      CoinId i.1 i.2 ≠ CoinId j.1 j.2)
    (c : String) : buildUsedBy txs c = buildUsedBy txs' c := by
  have hndl : txs.Nodup := List.Nodup.of_map _ hnd
  have hndl' : txs'.Nodup := h.nodup_iff.1 hndl
  by_cases hw : ∃ t ∈ txs, writesCoin t c
  · rcases hw with ⟨t, ht, hwt⟩
    have hframe : ∀ t' ∈ txs, t' ≠ t → ¬ writesCoin t' c := by
      rintro t' ht' hne ⟨_, hany'⟩
      rcases List.any_eq_true.1 hwt.2 with ⟨i, hi, hci⟩
      rcases List.any_eq_true.1 hany' with ⟨j, hj, hcj⟩
      simp only [decide_eq_true_eq] at hci hcj
      exact hdis t' ht' t ht hne j hj i hi (by rw [← hcj, ← hci])
    rw [buildUsedBy, buildUsedBy,
      usedBy_fold_writer txs c t _ ht hwt hframe hndl,
      usedBy_fold_writer txs' c t _ (h.mem_iff.1 ht) hwt
        (fun t' ht' => hframe t' (h.mem_iff.2 ht')) hndl']
  · rw [buildUsedBy, buildUsedBy,
      usedBy_fold_frame txs c _ (fun t ht hwt => hw ⟨t, ht, hwt⟩),
      usedBy_fold_frame txs' c _
        (fun t ht hwt => hw ⟨t, h.mem_iff.2 ht, hwt⟩)]

/-- C2: for a transaction set without conflicting double-spends (distinct
stored transactions never spend the same coin, and txids are unique),
`GetCoinsFromTransactions` assigns each coin the same status for every
permutation of the set: the per-coin update is a monotone max over the
status ordering, so the fold is order-independent. -/
theorem coinStatus_order_independent (ctx : OwnCtx) (txs txs' : List TxView)
    (hperm : txs.Perm txs') (hnd : (txs.map TxView.txid).Nodup)
    (hdis : ∀ a ∈ txs, ∀ b ∈ txs, a ≠ b → ∀ i ∈ a.inputs, ∀ j ∈ b.inputs,
      CoinId i.1 i.2 ≠ CoinId j.1 j.2)
    (id : String) :
    statusOf (GetCoinsFromTransactions ctx txs) id =
      statusOf (GetCoinsFromTransactions ctx txs') id := by
  have htm : findTx txs = findTx txs' :=
    funext (findTx_perm txs txs' hperm hnd)
  have hub : buildUsedBy txs = buildUsedBy txs' :=
    funext (buildUsedBy_perm txs txs' hperm hnd hdis)
  rw [statusOf_getCoins, statusOf_getCoins, ← htm, ← hub]
  exact aggStatus_perm (flatMap_perm _ hperm) none

theorem coinStatus_order_independent_witness :
    statusOf (GetCoinsFromTransactions
      ⟨fun a => a = "A" || a = "B", fun _ => false⟩
      [⟨"t1", 5, .CONFIRMED, [], [("A", 100)], "", 0, 0⟩,
       ⟨"t2", 0, .PENDING_CONFIRMATION, [("t1", 0)], [("B", 90)], "", 0, 0⟩])
      "t1:0" =
    statusOf (GetCoinsFromTransactions
      ⟨fun a => a = "A" || a = "B", fun _ => false⟩
      [⟨"t2", 0, .PENDING_CONFIRMATION, [("t1", 0)], [("B", 90)], "", 0, 0⟩,
       ⟨"t1", 5, .CONFIRMED, [], [("A", 100)], "", 0, 0⟩])
      "t1:0" := by
  exact coinStatus_order_independent _ _ _
    (List.Perm.swap _ _ _) (by decide) (by decide) "t1:0"

/-! ## Balance as a filtered sum (C6) -/

/-- The spec's balance inclusion predicate: a coin counts unless its status is
SPENT or OUTGOING_PENDING_CONFIRMATION, or -- when the mempool is excluded --
it is a non-change coin with status INCOMING_PENDING_CONFIRMATION. -/
def keepCoin (includeMempool : Bool) (c : UnspentOutput) : Bool :=
  if c.status = .SPENT ∨ c.status = .OUTGOING_PENDING_CONFIRMATION then false
  else if !includeMempool && !c.change &&
      c.status = .INCOMING_PENDING_CONFIRMATION then false
  else true

theorem balance_fold_eq (im : Bool) : ∀ (m : CoinMap) (acc : Int),
    (m.foldl
      (fun acc p =>
        if p.2.status = .SPENT ∨
            p.2.status = .OUTGOING_PENDING_CONFIRMATION then
          acc
        else if !im && !p.2.change &&
            p.2.status = .INCOMING_PENDING_CONFIRMATION then acc
        else acc + p.2.amount)
      acc) =
      acc + ((m.filter (fun p => keepCoin im p.2)).map
        (fun p => p.2.amount)).sum := by
  intro m
  induction m with
  | nil => intro acc; simp
  | cons a t ih =>
    intro acc
    rw [List.foldl_cons, List.filter_cons]
    by_cases h1 : a.2.status = .SPENT ∨
        a.2.status = .OUTGOING_PENDING_CONFIRMATION
    · rw [if_pos h1, ih]
      have hk : keepCoin im a.2 = false := by
        unfold keepCoin
        rw [if_pos h1]
      rw [hk]
      simp
    · rw [if_neg h1]
      by_cases h2 : (!im && !a.2.change &&
          decide (a.2.status = .INCOMING_PENDING_CONFIRMATION)) = true
      · rw [if_pos h2, ih]
        have hk : keepCoin im a.2 = false := by
          unfold keepCoin
          rw [if_neg h1, if_pos h2]
        rw [hk]
        simp
      · rw [if_neg h2, ih]
        have hk : keepCoin im a.2 = true := by
          unfold keepCoin
          rw [if_neg h1, if_neg h2]
        rw [hk]
        simp
        omega

theorem csMax_toNat_le (n : Nat) (a b : CoinStatus) (ha : a.toNat ≤ n)
    (hb : b.toNat ≤ n) : (csMax a b).toNat ≤ n := by
  unfold csMax
  by_cases h : a.toNat < b.toNat
  · rw [if_pos h]; exact hb
  · rw [if_neg h]; exact ha

theorem aggStatus_toNat_le (n : Nat) :
    ∀ (l : List CoinStatus), (∀ c ∈ l, c.toNat ≤ n) →
    ∀ (s : Option CoinStatus), (s.getD CoinStatus.bot).toNat ≤ n →
    ∀ c, aggStatus s l = some c → c.toNat ≤ n := by
  intro l
  induction l with
  | nil =>
    intro _ s hs c hagg
    cases s with
    | none => cases hagg
    | some c0 => cases hagg; exact hs
  | cons x t ih =>
    intro hl s hs c hagg
    exact ih (fun c hc => hl c (List.mem_cons_of_mem _ hc))
      (some (csMax (s.getD CoinStatus.bot) x))
      (csMax_toNat_le n _ _ hs (hl x (List.mem_cons_self x t))) c hagg

theorem spendContrib_char (ctx : OwnCtx) (tm : String → Option TxView)
    (tx : TxView) (id : String) (inp : String × Nat) (c : CoinStatus)
    (h : spendContrib ctx tm tx id inp = some c) :
    CoinId inp.1 inp.2 = id ∧ spendStatus tx.status = some c := by
  unfold spendContrib at h
  by_cases h1 : CoinId inp.1 inp.2 = id
  · rw [if_pos h1] at h
    cases htm : tm inp.1 with
    | none => simp only [htm] at h; cases h
    | some prev =>
      simp only [htm] at h
      cases hout : prev.outputs[inp.2]? with
      | none => simp only [hout] at h; cases h
      | some out =>
        simp only [hout] at h
        by_cases hmy : ctx.isMyAddress out.1 = true
        · rw [if_pos hmy] at h; exact ⟨h1, h⟩
        · rw [if_neg hmy] at h; cases h
  · rw [if_neg h1] at h; cases h

theorem outContrib_le (ctx : OwnCtx) (tx : TxView) (id : String) (vout : Nat)
    (out : String × Int) (c : CoinStatus)
    (h : outContrib ctx tx id vout out = some c) : c.toNat ≤ 1 := by
  unfold outContrib at h
  by_cases h1 : CoinId tx.txid vout = id ∧ ctx.isMyAddress out.1 = true
  · rw [if_pos h1] at h
    cases h
    by_cases hh : tx.height > 0
    · rw [if_pos hh]; decide
    · rw [if_neg hh]; decide
  · rw [if_neg h1] at h; cases h

/-- C6: `GetBalance` equals the sum of derived coin amounts over the coins the
spec's inclusion predicate keeps (excluding SPENT and
OUTGOING_PENDING_CONFIRMATION coins and, when the mempool is excluded,
non-change INCOMING_PENDING_CONFIRMATION coins); and a coin spent only by
unbroadcast (height `-1`) transactions never reaches an excluded spent tier:
its derived status is neither SPENT nor OUTGOING_PENDING_CONFIRMATION, so it
still passes the balance filter. -/
theorem getBalance_spec (ctx : OwnCtx) (txs : List TxView) (im : Bool)
    (id : String)
    (hunspent : ∀ t ∈ txs, (∃ i ∈ t.inputs, CoinId i.1 i.2 = id) →
      t.height = -1 ∧ ∃ sc, t.status = statusFromHeight sc (-1)) :
    GetBalance ctx txs im =
      (((GetCoinsFromTransactions ctx txs).filter
        (fun p => keepCoin im p.2)).map (fun p => p.2.amount)).sum ∧
    (∀ s, statusOf (GetCoinsFromTransactions ctx txs) id = some s →
      s ≠ .SPENT ∧ s ≠ .OUTGOING_PENDING_CONFIRMATION) ∧
    (∀ u, lookupCoin (GetCoinsFromTransactions ctx txs) id = some u →
      keepCoin true u = true) := by
  have hbound : ∀ c ∈ txs.flatMap (fun t =>
      txContribs ctx (findTx txs) (buildUsedBy txs) t id), c.toNat ≤ 3 := by
    intro c hc
    rcases List.mem_flatMap.1 hc with ⟨t, ht, hct⟩
    unfold txContribs at hct
    split at hct
    · cases hct
    · split at hct
      · cases hct
      · rcases List.mem_append.1 hct with hin | hout
        · rcases List.mem_filterMap.1 hin with ⟨inp, hinp, hsc⟩
          obtain ⟨hid, hss⟩ := spendContrib_char _ _ _ _ _ _ hsc
          rcases hunspent t ht ⟨inp, hinp, hid⟩ with ⟨_, sc, hst⟩
          cases sc
          · rw [hst] at hss
            simp [statusFromHeight, spendStatus] at hss
            rw [← hss]
            decide
          · rw [hst] at hss
            simp [statusFromHeight, spendStatus] at hss
            rw [← hss]
            decide
        · rcases List.mem_filterMap.1 hout with ⟨p, hp, ho⟩
          exact le_trans (outContrib_le _ _ _ _ _ _ ho) (by decide)
  have hc2 : ∀ s, statusOf (GetCoinsFromTransactions ctx txs) id = some s →
      s ≠ CoinStatus.SPENT ∧
        s ≠ CoinStatus.OUTGOING_PENDING_CONFIRMATION := by
    intro s hsOf
    rw [statusOf_getCoins] at hsOf
    have hle := aggStatus_toNat_le 3 _ hbound none (by decide) s hsOf
    constructor
    · rintro rfl; exact absurd hle (by decide)
    · rintro rfl; exact absurd hle (by decide)
  refine ⟨?_, hc2, ?_⟩
  · unfold GetBalance
    rw [balance_fold_eq]
    simp
  · intro u hu
    have hst : statusOf (GetCoinsFromTransactions ctx txs) id =
        some u.status := by
      unfold statusOf
      rw [hu]
      rfl
    obtain ⟨h1, h2⟩ := hc2 u.status hst
    simp [keepCoin, h1, h2]

theorem getBalance_spec_witness :
    GetBalance
      ⟨fun a => a = "A" || a = "B", fun _ => false⟩
      [⟨"t1", 5, .CONFIRMED, [], [("A", 100)], "", 0, 0⟩,
       ⟨"t2", -1, .PENDING_SIGNATURES, [("t1", 0)], [("B", 90)], "", 0, 0⟩]
      false =
      (((GetCoinsFromTransactions
        ⟨fun a => a = "A" || a = "B", fun _ => false⟩
        [⟨"t1", 5, .CONFIRMED, [], [("A", 100)], "", 0, 0⟩,
         ⟨"t2", -1, .PENDING_SIGNATURES, [("t1", 0)], [("B", 90)], "", 0, 0⟩]).filter
        (fun p => keepCoin false p.2)).map (fun p => p.2.amount)).sum ∧
    (∀ s, statusOf (GetCoinsFromTransactions
        ⟨fun a => a = "A" || a = "B", fun _ => false⟩
        [⟨"t1", 5, .CONFIRMED, [], [("A", 100)], "", 0, 0⟩,
         ⟨"t2", -1, .PENDING_SIGNATURES, [("t1", 0)], [("B", 90)], "", 0, 0⟩])
        "t1:0" = some s →
      s ≠ .SPENT ∧ s ≠ .OUTGOING_PENDING_CONFIRMATION) ∧
    (∀ u, lookupCoin (GetCoinsFromTransactions
        ⟨fun a => a = "A" || a = "B", fun _ => false⟩
        [⟨"t1", 5, .CONFIRMED, [], [("A", 100)], "", 0, 0⟩,
         ⟨"t2", -1, .PENDING_SIGNATURES, [("t1", 0)], [("B", 90)], "", 0, 0⟩])
        "t1:0" = some u →
      keepCoin true u = true) := by
  exact getBalance_spec _ _ false "t1:0" (by decide)

end Nunchuk
